import Mathlib

/-!
# ZeroTier `InetAddress` (node/InetAddress.hpp)

A shallow embedding of the inline operations of `struct InetAddress`, the
mixin over `sockaddr_storage`, together with theorems about its wire codec,
its port accessors and its address comparison.

The storage of an `InetAddress` is modelled byte by byte: the methods of the
header reinterpret the same memory as `sockaddr_in` or `sockaddr_in6`, so the
overlap of the two views is part of the behaviour.
-/

namespace ZeroTier

/-- One octet of memory or of a packet buffer (`uint8_t`). -/
abbrev Byte := Fin 256

/-- Conversion `(uint8_t)v`: the low eight bits of `v`. -/
def toByte (v : Nat) : Byte := ⟨v % 256, Nat.mod_lt v (by decide)⟩

/-- Value of a byte string read as one integer, most significant byte
first. -/
def beValue (l : List Byte) : Nat := l.foldl (fun acc b => 256 * acc + b.val) 0

/-- Exceptions thrown by the operations: `std::out_of_range` (thrown by the
buffer) and `std::invalid_argument` (thrown by `deserialize`). -/
inductive Exn where
  | outOfRange
  | invalidArgument
deriving DecidableEq

/-! ## Platform constants and layout

`sockaddr_storage`, `sockaddr_in`, `sockaddr_in6`, `AF_INET` and `AF_INET6`
come from the system headers. The values below are those of Linux on a
little-endian machine (glibc, x86-64):

* `sockaddr_storage`: 128 bytes, `ss_family` a `uint16_t` at offset 0;
* `sockaddr_in`: 16 bytes, `sin_port` at offset 2, `sin_addr` at offset 4;
* `sockaddr_in6`: 28 bytes, `sin6_port` at offset 2, `sin6_flowinfo` at
  offset 4, `sin6_addr` at offset 8, `sin6_scope_id` at offset 24.
-/

/-- Value of `AF_INET`. -/
def AF_INET : Nat := 2

/-- Value of `AF_INET6`. -/
def AF_INET6 : Nat := 10

/-- Value of `sizeof(struct sockaddr_in)`. -/
def SIZEOF_SOCKADDR_IN : Nat := 16

/-- Value of `sizeof(struct sockaddr_in6)`. -/
def SIZEOF_SOCKADDR_IN6 : Nat := 28

/-- Value of `sizeof(InetAddress)`: the mixin adds no member to
`sockaddr_storage`. -/
def SIZEOF_INETADDRESS : Nat := 128

/-- Offset of `sin_port` in `sockaddr_in` and of `sin6_port` in
`sockaddr_in6`. -/
def OFF_PORT : Nat := 2

/-- Offset of `sin_addr.s_addr` in `sockaddr_in`. -/
def OFF_SIN_ADDR : Nat := 4

/-- Offset of `sin6_addr.s6_addr` in `sockaddr_in6`. -/
def OFF_SIN6_ADDR : Nat := 8

/-- Modelled from the spec: `Utils::hton` on a `uint16_t` (Utils.hpp is not
among the sources). The spec stores the port "in network byte order"; on the
little-endian host modelled here that is the swap of the two bytes. -/
def hton (v : Nat) : Nat := (v % 256) * 256 + (v / 256) % 256

/-- Modelled from the spec: `Utils::ntoh` on a `uint16_t` (Utils.hpp is not
among the sources); the inverse swap. -/
def ntoh (v : Nat) : Nat := (v % 256) * 256 + (v / 256) % 256

/-! ## The packet buffer -/

/-- Modelled from the spec: `Buffer<C>` (Buffer.hpp is not among the
sources), the "caller-provided fixed-capacity byte buffer": the bytes
appended so far, at most `C` of them. -/
structure Buffer (C : Nat) where
  /-- The bytes held, in order; the buffer's length is the list's length. -/
  data : List Byte
deriving DecidableEq

namespace Buffer

variable {C : Nat}

/-- Modelled from the spec: `Buffer::size()`, the number of bytes held. -/
def size (b : Buffer C) : Nat := b.data.length

/-- Modelled from the spec: `Buffer::operator[]`, the byte at index `i`;
reading at or beyond the end throws `std::out_of_range`. -/
def index (b : Buffer C) (i : Nat) : Except Exn Byte :=
  match b.data[i]? with
  | some v => .ok v
  | none => .error .outOfRange

/-- Modelled from the spec: `Buffer::field(i,l)`, the `l` raw bytes starting
at index `i`; a field reaching beyond the end throws `std::out_of_range`. -/
def field (b : Buffer C) (i l : Nat) : Except Exn (List Byte) :=
  if i + l > b.data.length then .error .outOfRange
  else .ok ((b.data.drop i).take l)

/-- Modelled from the spec: `Buffer::at<uint16_t>(i)`, the 16-bit integer
stored at index `i` in network byte order (most significant byte first),
returned in host order; reading beyond the end throws `std::out_of_range`. -/
def at16 (b : Buffer C) (i : Nat) : Except Exn Nat :=
  if i + 2 > b.data.length then .error .outOfRange
  else .ok (256 * (b.data.getD i 0).val + (b.data.getD (i + 1) 0).val)

/-- Modelled from the spec: `Buffer::append(uint8_t)`, one byte added at the
end; appending beyond the capacity `C` throws `std::out_of_range`. -/
def append8 (b : Buffer C) (v : Byte) : Except Exn (Buffer C) :=
  if b.data.length + 1 > C then .error .outOfRange
  else .ok ⟨b.data ++ [v]⟩

/-- Modelled from the spec: `Buffer::append(const void *,unsigned int)`, raw
bytes added at the end; appending beyond the capacity `C` throws
`std::out_of_range`. -/
def appendBytes (b : Buffer C) (src : List Byte) : Except Exn (Buffer C) :=
  if b.data.length + src.length > C then .error .outOfRange
  else .ok ⟨b.data ++ src⟩

/-- Modelled from the spec: `Buffer::append(uint16_t)`, a 16-bit integer
added at the end in network byte order (most significant byte first);
appending beyond the capacity `C` throws `std::out_of_range`. -/
def append16 (b : Buffer C) (v : Nat) : Except Exn (Buffer C) :=
  if b.data.length + 2 > C then .error .outOfRange
  else .ok ⟨b.data ++ [toByte (v / 256), toByte v]⟩

end Buffer

/-! ## The endpoint -/

/-- Storage of `struct InetAddress : public sockaddr_storage`: 128 bytes. -/
@[ext]
structure InetAddress where
  /-- The bytes of the object, by offset. -/
  mem : Fin 128 → Byte

/-- IP address scope, `enum IpScope`. -/
inductive IpScope where
  | IP_SCOPE_NONE
  | IP_SCOPE_MULTICAST
  | IP_SCOPE_LOOPBACK
  | IP_SCOPE_PSEUDOPRIVATE
  | IP_SCOPE_GLOBAL
  | IP_SCOPE_LINK_LOCAL
  | IP_SCOPE_SHARED
  | IP_SCOPE_PRIVATE
deriving DecidableEq

/-- Numeric value of each enumerator of `IpScope`, as written in the
enumeration. -/
def IpScope.toNat : IpScope → Nat
  | .IP_SCOPE_NONE => 0
  | .IP_SCOPE_MULTICAST => 1
  | .IP_SCOPE_LOOPBACK => 2
  | .IP_SCOPE_PSEUDOPRIVATE => 3
  | .IP_SCOPE_GLOBAL => 4
  | .IP_SCOPE_LINK_LOCAL => 5
  | .IP_SCOPE_SHARED => 6
  | .IP_SCOPE_PRIVATE => 7

namespace InetAddress

/-- The byte at offset `i` of the object (zero outside the object, which no
operation below reads). -/
def rd (a : InetAddress) (i : Nat) : Byte :=
  if h : i < 128 then a.mem ⟨i, h⟩ else 0

/-- Read of a `uint16_t` member at offset `off` (host order, little-endian). -/
def load16 (a : InetAddress) (off : Nat) : Nat :=
  (a.rd off).val + 256 * (a.rd (off + 1)).val

/-- Write of a `uint16_t` member at offset `off` (host order, little-endian). -/
def store16 (a : InetAddress) (off : Nat) (v : Nat) : InetAddress :=
  ⟨fun i =>
    if i.val = off then toByte v
    else if i.val = off + 1 then toByte (v / 256)
    else a.mem i⟩

/-- Read of a `uint32_t` member at offset `off` (host order, little-endian). -/
def load32 (a : InetAddress) (off : Nat) : Nat :=
  (a.rd off).val + 256 * (a.rd (off + 1)).val
    + 65536 * (a.rd (off + 2)).val + 16777216 * (a.rd (off + 3)).val

/-- The `n` bytes of the object starting at offset `off`. -/
def bytesAt (a : InetAddress) (off n : Nat) : List Byte :=
  (List.range n).map (fun k => a.rd (off + k))

/-- Library `memcpy(this + off, src, src.length)`. -/
def memcpy (a : InetAddress) (off : Nat) (src : List Byte) : InetAddress :=
  ⟨fun i => if off ≤ i.val then (src[i.val - off]?).getD (a.mem i) else a.mem i⟩

/-- Library `memset(this + 0, v, n)`: the first `n` bytes become `v`. -/
def memset (a : InetAddress) (v : Byte) (n : Nat) : InetAddress :=
  ⟨fun i => if i.val < n then v else a.mem i⟩

/-- The value built by the default constructor `InetAddress()`, which clears
the whole object: every byte is zero. -/
def nil : InetAddress := ⟨fun _ => 0⟩

/-- Method `zero()`: `memset(this,0,sizeof(InetAddress))`. -/
def zero (a : InetAddress) : InetAddress := a.memset 0 SIZEOF_INETADDRESS

/-- Member `ss_family`. -/
def ss_family (a : InetAddress) : Nat := a.load16 0

/-- Assignment `ss_family = v`. -/
def set_ss_family (a : InetAddress) (v : Nat) : InetAddress := a.store16 0 v

/-- Member `sin_port` of the `sockaddr_in` view. -/
def sin_port (a : InetAddress) : Nat := a.load16 OFF_PORT

/-- Member `sin6_port` of the `sockaddr_in6` view. -/
def sin6_port (a : InetAddress) : Nat := a.load16 OFF_PORT

/-- Assignment `sin_port = v` through the `sockaddr_in` view. -/
def set_sin_port (a : InetAddress) (v : Nat) : InetAddress := a.store16 OFF_PORT v

/-- Assignment `sin6_port = v` through the `sockaddr_in6` view. -/
def set_sin6_port (a : InetAddress) (v : Nat) : InetAddress := a.store16 OFF_PORT v

/-- Member `sin_addr.s_addr` of the `sockaddr_in` view, as a `uint32_t`. -/
def s_addr (a : InetAddress) : Nat := a.load32 OFF_SIN_ADDR

/-- Member `sin6_addr.s6_addr` of the `sockaddr_in6` view: 16 bytes. -/
def s6_addr (a : InetAddress) : List Byte := a.bytesAt OFF_SIN6_ADDR 16

/-- Method `isV4()`. -/
def isV4 (a : InetAddress) : Bool := a.ss_family == AF_INET

/-- Method `isV6()`. -/
def isV6 (a : InetAddress) : Bool := a.ss_family == AF_INET6

/-- Method `operator bool()`: true if the address family is non-zero. -/
def toBool (a : InetAddress) : Bool := a.ss_family != 0

/-- Method `setPort(unsigned int port)`. -/
def setPort (a : InetAddress) (port : Nat) : InetAddress :=
  if a.ss_family = AF_INET then a.set_sin_port (hton (port % 65536))
  else if a.ss_family = AF_INET6 then a.set_sin6_port (hton (port % 65536))
  else a

/-- Method `port()`. -/
def port (a : InetAddress) : Nat :=
  if a.ss_family = AF_INET then ntoh (a.sin_port % 65536)
  else if a.ss_family = AF_INET6 then ntoh (a.sin6_port % 65536)
  else 0

/-- Method `netmaskBits()`. -/
def netmaskBits (a : InetAddress) : Nat := a.port

/-- Method `metric()`. -/
def metric (a : InetAddress) : Nat := a.port

/-- Method `rawIpData()`: the bytes the returned pointer designates, 4 for
`AF_INET`, 16 for `AF_INET6`; `none` stands for the null pointer. -/
def rawIpData (a : InetAddress) : Option (List Byte) :=
  if a.ss_family = AF_INET then some (a.bytesAt OFF_SIN_ADDR 4)
  else if a.ss_family = AF_INET6 then some (a.bytesAt OFF_SIN6_ADDR 16)
  else none

/-- Method `ipsEqual(const InetAddress &a)`. -/
def ipsEqual (self a : InetAddress) : Bool :=
  if self.ss_family = AF_INET then decide (self.s_addr = a.s_addr)
  else if self.ss_family = AF_INET6 then decide (self.s6_addr = a.s6_addr)
  else false

/-- Method `serialize(Buffer<C> &b)`: the buffer after the call, and whether
the call returned or threw. -/
def serialize {C : Nat} (self : InetAddress) (b : Buffer C) : Buffer C × Except Exn Unit :=
  if self.ss_family = AF_INET then
    match b.append8 (toByte 0x04) with
    | .error e => (b, .error e)
    | .ok b1 =>
      match b1.appendBytes (self.bytesAt OFF_SIN_ADDR 4) with
      | .error e => (b1, .error e)
      | .ok b2 =>
        match b2.append16 (self.port % 65536) with
        | .error e => (b2, .error e)
        | .ok b3 => (b3, .ok ())
  else if self.ss_family = AF_INET6 then
    match b.append8 (toByte 0x06) with
    | .error e => (b, .error e)
    | .ok b1 =>
      match b1.appendBytes (self.bytesAt OFF_SIN6_ADDR 16) with
      | .error e => (b1, .error e)
      | .ok b2 =>
        match b2.append16 (self.port % 65536) with
        | .error e => (b2, .error e)
        | .ok b3 => (b3, .ok ())
  else
    match b.append8 (toByte 0) with
    | .error e => (b, .error e)
    | .ok b1 => (b1, .ok ())

/-- Method `deserialize(const Buffer<C> &b,unsigned int startAt)`: the
object after the call, and the value returned or the exception thrown.
Offsets are natural numbers: the bounds checks of the buffer keep every
index that is read below the buffer's length. -/
def deserialize {C : Nat} (self : InetAddress) (b : Buffer C) (startAt : Nat) :
    InetAddress × Except Exn Nat :=
  let p := startAt
  let self := self.memset 0 SIZEOF_INETADDRESS
  match b.index p with
  | .error e => (self, .error e)
  | .ok tag =>
    let p := p + 1
    if tag.val = 0 then (self, .ok 1)
    else if tag.val = 0x04 then
      let self := self.set_ss_family AF_INET
      match b.field p 4 with
      | .error e => (self, .error e)
      | .ok src =>
        let self := self.memcpy OFF_SIN_ADDR src
        let p := p + 4
        match b.at16 p with
        | .error e => (self, .error e)
        | .ok v =>
          let self := self.set_sin_port (hton v)
          let p := p + 2
          (self, .ok (p - startAt))
    else if tag.val = 0x06 then
      let self := self.set_ss_family AF_INET6
      match b.field p 16 with
      | .error e => (self, .error e)
      | .ok src =>
        let self := self.memcpy OFF_SIN6_ADDR src
        let p := p + 16
        match b.at16 p with
        | .error e => (self, .error e)
        | .ok v =>
          let self := self.set_sin_port (hton v)
          let p := p + 2
          (self, .ok (p - startAt))
    else (self, .error .invalidArgument)

/-- Number of bytes of the wire record of an endpoint, by family. -/
def wireLen (a : InetAddress) : Nat :=
  if a.ss_family = AF_INET then 7 else if a.ss_family = AF_INET6 then 19 else 1

/-- The wire record of an endpoint, by family: tag, address bytes, port. -/
def wireBytes (a : InetAddress) : List Byte :=
  if a.ss_family = AF_INET then
    toByte 0x04 ::
      (a.bytesAt OFF_SIN_ADDR 4 ++ [toByte (a.port % 65536 / 256), toByte (a.port % 65536)])
  else if a.ss_family = AF_INET6 then
    toByte 0x06 ::
      (a.bytesAt OFF_SIN6_ADDR 16 ++ [toByte (a.port % 65536 / 256), toByte (a.port % 65536)])
  else [toByte 0]

/-- An IPv4 or IPv6 endpoint whose storage is zero outside the family, the
port and the address bytes of its family. -/
def Canonical (a : InetAddress) : Prop :=
  (a.ss_family = AF_INET ∧ ∀ k, k < 128 → 8 ≤ k → a.rd k = 0) ∨
  (a.ss_family = AF_INET6 ∧ ∀ k, k < 128 → (4 ≤ k ∧ k < 8) ∨ 24 ≤ k → a.rd k = 0)

instance (a : InetAddress) : Decidable a.Canonical := by
  unfold Canonical
  infer_instance

/-- The endpoint whose first bytes are those of `l`, the rest zero. -/
def ofList (l : List Byte) : InetAddress := ⟨fun i => l.getD i.val 0⟩

/-- Example: the IPv4 endpoint 1.2.3.4 port 80. -/
def exV4 : InetAddress := ofList [2, 0, 0, 80, 1, 2, 3, 4]

/-- Example: the IPv4 endpoint 0.0.0.0 without port. -/
def exV4Any : InetAddress := ofList [2, 0]

/-- Example: the IPv6 endpoint `::` without port. -/
def exV6Any : InetAddress := ofList [10, 0]

/-- Example: the IPv6 endpoint fd00:102:304:506:708:90a:b0c:d0e port 9993. -/
def exV6 : InetAddress :=
  ofList [10, 0, 0x27, 0x09, 0, 0, 0, 0,
    0xfd, 0, 1, 2, 3, 4, 5, 6, 7, 8, 9, 10, 11, 12, 13, 14]

/-! ### Socket address arguments and assignment -/

end InetAddress

/-- The byte at index `k` of a fixed-size object (zero outside it). -/
def readFn {n : Nat} (f : Fin n → Byte) (k : Nat) : Byte :=
  if h : k < n then f ⟨k, h⟩ else 0

/-- A `struct sockaddr_in` value: 16 bytes. -/
structure SockaddrIn where
  /-- The bytes of the object, by offset. -/
  mem : Fin 16 → Byte

/-- A `struct sockaddr_in6` value: 28 bytes. -/
structure SockaddrIn6 where
  /-- The bytes of the object, by offset. -/
  mem : Fin 28 → Byte

/-- A `struct sockaddr_storage` value: 128 bytes. -/
structure SockaddrStorage where
  /-- The bytes of the object, by offset. -/
  mem : Fin 128 → Byte

/-- The object a `const struct sockaddr &` designates: the bytes found from
its address on. The reference stands for a `sockaddr_in`, a `sockaddr_in6`
or another socket address, so its extent is not that of `struct sockaddr`. -/
structure Sockaddr where
  /-- The bytes from the address of the object on, by offset. -/
  mem : Nat → Byte

/-- Member `sin_family` of a `sockaddr_in` (host order, little-endian). -/
def SockaddrIn.sin_family (sa : SockaddrIn) : Nat :=
  (readFn sa.mem 0).val + 256 * (readFn sa.mem 1).val

/-- Member `sin6_family` of a `sockaddr_in6` (host order, little-endian). -/
def SockaddrIn6.sin6_family (sa : SockaddrIn6) : Nat :=
  (readFn sa.mem 0).val + 256 * (readFn sa.mem 1).val

/-- Member `ss_family` of a `sockaddr_storage` (host order, little-endian). -/
def SockaddrStorage.ss_family (ss : SockaddrStorage) : Nat :=
  (readFn ss.mem 0).val + 256 * (readFn ss.mem 1).val

/-- Member `sa_family` of a `sockaddr` (host order, little-endian). -/
def Sockaddr.sa_family (sa : Sockaddr) : Nat :=
  (sa.mem 0).val + 256 * (sa.mem 1).val

namespace InetAddress

/-- Assignment `operator=(const struct sockaddr_storage &ss)`. -/
def assign_sockaddr_storage (self : InetAddress) (ss : SockaddrStorage) : InetAddress :=
  self.memcpy 0 ((List.range SIZEOF_INETADDRESS).map (readFn ss.mem))

/-- Assignment `operator=(const struct sockaddr_in &sa)`. -/
def assign_sockaddr_in (self : InetAddress) (sa : SockaddrIn) : InetAddress :=
  let self := self.memset 0 SIZEOF_INETADDRESS
  self.memcpy 0 ((List.range SIZEOF_SOCKADDR_IN).map (readFn sa.mem))

/-- Assignment `operator=(const struct sockaddr_in6 &sa)`. -/
def assign_sockaddr_in6 (self : InetAddress) (sa : SockaddrIn6) : InetAddress :=
  let self := self.memset 0 SIZEOF_INETADDRESS
  self.memcpy 0 ((List.range SIZEOF_SOCKADDR_IN6).map (readFn sa.mem))

/-- Assignment `operator=(const struct sockaddr &sa)`. -/
def assign_sockaddr (self : InetAddress) (sa : Sockaddr) : InetAddress :=
  let self := self.memset 0 SIZEOF_INETADDRESS
  if sa.sa_family = AF_INET then
    self.memcpy 0 ((List.range SIZEOF_SOCKADDR_IN).map sa.mem)
  else if sa.sa_family = AF_INET6 then
    self.memcpy 0 ((List.range SIZEOF_SOCKADDR_IN6).map sa.mem)
  else self

/-- Modelled from the spec: `InetAddress::makeIpv6rfc4193`, which the header
only declares; its body is in InetAddress.cpp, not among the sources. The
bytes are those of section 4.6 of the spec: byte 0 = 0xfd; bytes 1 to 5 =
the high 40 bits of the domain ID; bytes 6 and 7 = the low 16 bits of the
domain ID; bytes 8 and 9 = the marker 0x99, 0x93; bytes 10 to 14 = the low
40 bits of the member ID; byte 15 = 0x00; prefix length 88 in the port
field, everything else zero. The arguments are `uint64_t`. -/
def makeIpv6rfc4193 (nwid zeroTierAddress : Nat) : InetAddress :=
  let r := nil
  let r := r.set_ss_family AF_INET6
  let r := r.memcpy OFF_SIN6_ADDR
    [toByte 0xfd,
      toByte (nwid / 2 ^ 56), toByte (nwid / 2 ^ 48), toByte (nwid / 2 ^ 40),
      toByte (nwid / 2 ^ 32), toByte (nwid / 2 ^ 24),
      toByte (nwid / 2 ^ 8), toByte nwid,
      toByte 0x99, toByte 0x93,
      toByte (zeroTierAddress / 2 ^ 32), toByte (zeroTierAddress / 2 ^ 24),
      toByte (zeroTierAddress / 2 ^ 16), toByte (zeroTierAddress / 2 ^ 8),
      toByte zeroTierAddress,
      toByte 0x00]
  r.set_sin6_port (hton 88)

instance : DecidableEq InetAddress := fun a b =>
  @decidable_of_iff _ (∀ k, k < 128 → a.rd k = b.rd k)
    ⟨fun h => by
      ext i
      have e := h i.val i.isLt
      simp only [rd, i.isLt, dite_true] at e
      rw [e],
     fun h _ _ => by rw [h]⟩
    (Nat.decidableBallLT 128 (fun k _ => a.rd k = b.rd k))

/-- The data-model invariant: an endpoint whose family is none has all of
its storage zero. -/
def NoneIsZero (a : InetAddress) : Prop := a.ss_family = 0 → a = nil

instance (a : InetAddress) : Decidable a.NoneIsZero := by
  unfold NoneIsZero
  infer_instance

/-- Example: a `sockaddr_storage` with family 0 and the port bytes 0, 80. -/
def exStorageNoFamily : SockaddrStorage := ⟨fun i => [0, 0, 0, 80].getD i.val 0⟩

/-- Example: a `sockaddr_in` with family 0 and the port bytes 0, 80. -/
def exSockaddrInNoFamily : SockaddrIn := ⟨fun i => [0, 0, 0, 80].getD i.val 0⟩

/-- Example: a `sockaddr_in6` with family 0 and the port bytes 0, 80. -/
def exSockaddrIn6NoFamily : SockaddrIn6 := ⟨fun i => [0, 0, 0, 80].getD i.val 0⟩

/-- Example: a `sockaddr_in` with family `AF_INET`, port 80, address 1.2.3.4. -/
def exSockaddrIn : SockaddrIn := ⟨fun i => [2, 0, 0, 80, 1, 2, 3, 4].getD i.val 0⟩

/-- Example: a `sockaddr` with family `AF_INET`, port 80, address 1.2.3.4. -/
def exSockaddr : Sockaddr := ⟨fun k => [2, 0, 0, 80, 1, 2, 3, 4].getD k 0⟩

/-- Example: a `sockaddr` with family 1 followed by the bytes 7, 7. -/
def exSockaddrOther : Sockaddr := ⟨fun k => [1, 0, 7, 7].getD k 0⟩

/-- Example: an endpoint with family 1 and every other byte zero. -/
def exOtherFamily : InetAddress := ofList [1, 0]

end InetAddress

/-! ## Auxiliary lemmas -/

namespace InetAddress

theorem rd_lt (a : InetAddress) (i : Nat) (h : i < 128) : a.rd i = a.mem ⟨i, h⟩ := by
  simp [rd, h]

theorem rd_val (a : InetAddress) (i : Fin 128) : a.rd i.val = a.mem i := by
  simp [rd]

theorem load16_lt (a : InetAddress) (off : Nat) : a.load16 off < 65536 := by
  unfold load16
  have h1 := (a.rd off).isLt
  have h2 := (a.rd (off + 1)).isLt
  omega

theorem hton_hton (v : Nat) (h : v < 65536) : hton (hton v) = v := by
  unfold hton
  have h0 := Nat.div_add_mod v 256
  have h1 : v % 256 < 256 := Nat.mod_lt _ (by decide)
  have h2 : v / 256 < 256 := by omega
  generalize v / 256 = hi at *
  generalize v % 256 = lo at *
  have h3 : hi % 256 = hi := Nat.mod_eq_of_lt h2
  rw [h3]
  have h4 : (lo * 256 + hi) / 256 = lo := by omega
  have h5 : (lo * 256 + hi) % 256 = hi := by omega
  rw [h4, h5]
  omega

theorem ntoh_hton (v : Nat) (h : v < 65536) : ntoh (hton v) = v := by
  unfold ntoh; exact hton_hton v h

theorem hton_lt (v : Nat) : hton v < 65536 := by
  unfold hton; omega

theorem memset_all (a : InetAddress) : a.memset 0 SIZEOF_INETADDRESS = nil := by
  ext i
  simp [memset, nil, SIZEOF_INETADDRESS]

theorem load32_inj (a b : InetAddress) (off : Nat) :
    a.load32 off = b.load32 off ↔ a.bytesAt off 4 = b.bytesAt off 4 := by
  have e : ∀ c : InetAddress,
      c.bytesAt off 4 = [c.rd off, c.rd (off+1), c.rd (off+2), c.rd (off+3)] := by
    intro c; simp [bytesAt, List.range, List.range.loop]
  rw [e, e]
  unfold load32
  have h1 := (a.rd off).isLt
  have h2 := (a.rd (off + 1)).isLt
  have h3 := (a.rd (off + 2)).isLt
  have h4 := (a.rd (off + 3)).isLt
  have g1 := (b.rd off).isLt
  have g2 := (b.rd (off + 1)).isLt
  have g3 := (b.rd (off + 2)).isLt
  have g4 := (b.rd (off + 3)).isLt
  constructor
  · intro h
    have k1 : (a.rd off).val = (b.rd off).val := by omega
    have k2 : (a.rd (off+1)).val = (b.rd (off+1)).val := by omega
    have k3 : (a.rd (off+2)).val = (b.rd (off+2)).val := by omega
    have k4 : (a.rd (off+3)).val = (b.rd (off+3)).val := by omega
    rw [Fin.ext k1, Fin.ext k2, Fin.ext k3, Fin.ext k4]
  · intro h
    simp only [List.cons.injEq, and_true] at h
    obtain ⟨k1, k2, k3, k4⟩ := h
    rw [k1, k2, k3, k4]


theorem bytesAt_four (c : InetAddress) (off : Nat) :
    c.bytesAt off 4 = [c.rd off, c.rd (off+1), c.rd (off+2), c.rd (off+3)] := by
  simp [bytesAt, List.range, List.range.loop]

theorem bytesAt_length (c : InetAddress) (off n : Nat) : (c.bytesAt off n).length = n := by
  simp [bytesAt]

theorem wireBytes_length (a : InetAddress) : a.wireBytes.length = a.wireLen := by
  unfold wireBytes wireLen
  split_ifs <;> simp [bytesAt_length]

theorem serialize_of_room {C : Nat} (a : InetAddress) (b : Buffer C)
    (h : b.data.length + a.wireLen ≤ C) :
    a.serialize b = (⟨b.data ++ a.wireBytes⟩, .ok ()) := by
  unfold wireLen at h
  unfold serialize wireBytes Buffer.append8 Buffer.appendBytes Buffer.append16
  by_cases h4 : a.ss_family = AF_INET
  · rw [if_pos h4] at h
    have e1 : ¬ (b.data.length + 1 > C) := by omega
    have e2 : ¬ (b.data.length + 1 + 4 > C) := by omega
    have e3 : ¬ (b.data.length + 1 + 4 + 2 > C) := by omega
    simp [h4, e1, e2, e3, bytesAt_length]
  · rw [if_neg h4] at h
    by_cases h6 : a.ss_family = AF_INET6
    · rw [if_pos h6] at h
      have e1 : ¬ (b.data.length + 1 > C) := by omega
      have e2 : ¬ (b.data.length + 1 + 16 > C) := by omega
      have e3 : ¬ (b.data.length + 1 + 16 + 2 > C) := by omega
      have ne : ¬ (AF_INET6 = AF_INET) := by decide
      simp [h6, ne, e1, e2, e3, bytesAt_length]
    · rw [if_neg h6] at h
      have e1 : ¬ (b.data.length + 1 > C) := by omega
      simp [h4, h6, e1]

theorem serialize_ok_room {C : Nat} (a : InetAddress) (b b1 : Buffer C)
    (h : a.serialize b = (b1, .ok ())) : b.data.length + a.wireLen ≤ C := by
  unfold wireLen
  unfold serialize Buffer.append8 Buffer.appendBytes Buffer.append16 at h
  by_cases h4 : a.ss_family = AF_INET
  · rw [if_pos h4]
    rw [if_pos h4] at h
    by_cases e1 : b.data.length + 1 > C
    · simp [e1] at h
    · by_cases e2 : b.data.length + 1 + 4 > C
      · simp [e1, e2, bytesAt_length] at h
      · by_cases e3 : b.data.length + 1 + 4 + 2 > C
        · simp [e1, e2, e3, bytesAt_length] at h
        · omega
  · rw [if_neg h4]
    rw [if_neg h4] at h
    by_cases h6 : a.ss_family = AF_INET6
    · rw [if_pos h6]
      rw [if_pos h6] at h
      by_cases e1 : b.data.length + 1 > C
      · simp [e1] at h
      · by_cases e2 : b.data.length + 1 + 16 > C
        · simp [e1, e2, bytesAt_length] at h
        · by_cases e3 : b.data.length + 1 + 16 + 2 > C
          · simp [e1, e2, e3, bytesAt_length] at h
          · omega
    · rw [if_neg h6]
      rw [if_neg h6] at h
      by_cases e1 : b.data.length + 1 > C
      · simp [e1] at h
      · omega


theorem deserialize_short {C : Nat} (t : InetAddress) (b : Buffer C) (s : Nat)
    (h : b.data.length ≤ s) : t.deserialize b s = (nil, .error .outOfRange) := by
  have e : b.data[s]? = none := List.getElem?_eq_none h
  simp [deserialize, memset_all, Buffer.index, e]

theorem deserialize_tag0 {C : Nat} (t : InetAddress) (b : Buffer C) (s : Nat) (tag : Byte)
    (h : b.data[s]? = some tag) (h0 : tag.val = 0) :
    t.deserialize b s = (nil, .ok 1) := by
  simp [deserialize, memset_all, Buffer.index, h, h0]

theorem deserialize_tag4 {C : Nat} (t : InetAddress) (b : Buffer C) (s : Nat) (tag : Byte)
    (h : b.data[s]? = some tag) (h4 : tag.val = 4) (hl : s + 7 ≤ b.data.length) :
    t.deserialize b s =
      (((nil.set_ss_family AF_INET).memcpy OFF_SIN_ADDR ((b.data.drop (s + 1)).take 4)).set_sin_port
          (hton (256 * (b.data.getD (s + 5) 0).val + (b.data.getD (s + 6) 0).val)), .ok 7) := by
  have e1 : ¬ (s + 1 + 4 > b.data.length) := by omega
  have e2 : ¬ (s + 1 + 4 + 2 > b.data.length) := by omega
  simp only [deserialize, memset_all, Buffer.index, h, h4, Buffer.field, Buffer.at16, e1, e2, if_false]
  simp
  omega

theorem deserialize_tag6 {C : Nat} (t : InetAddress) (b : Buffer C) (s : Nat) (tag : Byte)
    (h : b.data[s]? = some tag) (h6 : tag.val = 6) (hl : s + 19 ≤ b.data.length) :
    t.deserialize b s =
      (((nil.set_ss_family AF_INET6).memcpy OFF_SIN6_ADDR ((b.data.drop (s + 1)).take 16)).set_sin_port
          (hton (256 * (b.data.getD (s + 17) 0).val + (b.data.getD (s + 18) 0).val)), .ok 19) := by
  have e1 : ¬ (s + 1 + 16 > b.data.length) := by omega
  have e2 : ¬ (s + 1 + 16 + 2 > b.data.length) := by omega
  simp only [deserialize, memset_all, Buffer.index, h, h6, Buffer.field, Buffer.at16, e1, e2, if_false]
  simp
  omega

theorem deserialize_badtag {C : Nat} (t : InetAddress) (b : Buffer C) (s : Nat) (tag : Byte)
    (h : b.data[s]? = some tag) (h0 : tag.val ≠ 0) (h4 : tag.val ≠ 4) (h6 : tag.val ≠ 6) :
    t.deserialize b s = (nil, .error .invalidArgument) := by
  simp [deserialize, memset_all, Buffer.index, h, h0, h4, h6]

end InetAddress

theorem wire_tag (pre rest : List Byte) (tag : Byte) :
    (pre ++ tag :: rest)[pre.length]? = some tag := by
  rw [List.getElem?_append_right (le_refl _)]
  simp

theorem wire_field (pre A B : List Byte) (tag : Byte) (n : Nat) (hn : A.length = n) :
    ((pre ++ tag :: (A ++ B)).drop (pre.length + 1)).take n = A := by
  subst hn
  have : pre.length + 1 = (pre ++ [tag]).length := by simp
  rw [show pre ++ tag :: (A ++ B) = (pre ++ [tag]) ++ (A ++ B) by simp, this, List.drop_left]
  simp

theorem wire_hi (pre A : List Byte) (tag p1 p2 : Byte) (n : Nat) (hn : A.length = n) :
    (pre ++ tag :: (A ++ [p1, p2])).getD (pre.length + (n + 1)) 0 = p1 := by
  subst hn
  have e : pre ++ tag :: (A ++ [p1, p2]) = (pre ++ tag :: A) ++ [p1, p2] := by simp
  have l : pre.length + (A.length + 1) = (pre ++ tag :: A).length := by simp
  rw [e, l, List.getD_eq_getElem?_getD, List.getElem?_append_right (le_refl _)]
  simp

theorem wire_lo (pre A : List Byte) (tag p1 p2 : Byte) (n : Nat) (hn : A.length = n) :
    (pre ++ tag :: (A ++ [p1, p2])).getD (pre.length + (n + 2)) 0 = p2 := by
  subst hn
  have e : pre ++ tag :: (A ++ [p1, p2]) = (pre ++ tag :: A) ++ [p1, p2] := by simp
  have l : pre.length + (A.length + 2) = (pre ++ tag :: A).length + 1 := by simp; omega
  rw [e, l, List.getD_eq_getElem?_getD, List.getElem?_append_right (by omega)]
  simp

namespace InetAddress

theorem bytesAt_getElem_opt (c : InetAddress) (off n k : Nat) :
    (c.bytesAt off n)[k]? = if k < n then some (c.rd (off + k)) else none := by
  unfold bytesAt
  rw [List.getElem?_map]
  by_cases h : k < n
  · simp [h, List.getElem?_range h]
  · have : (List.range n)[k]? = none := List.getElem?_eq_none (by simp; omega)
    simp [h, this]

theorem decoded_rd (F off w : Nat) (src : List Byte) (k : Nat) (hk : k < 128) :
    (((nil.set_ss_family F).memcpy off src).set_sin_port w).rd k =
      if k = 2 then toByte w
      else if k = 3 then toByte (w / 256)
      else if off ≤ k then
        (src[k - off]?).getD (if k = 0 then toByte F else if k = 1 then toByte (F / 256) else 0)
      else (if k = 0 then toByte F else if k = 1 then toByte (F / 256) else 0) := by
  simp [rd, hk, set_sin_port, store16, memcpy, set_ss_family, nil, OFF_PORT]

theorem ext_rd (a b : InetAddress) (h : ∀ k, k < 128 → a.rd k = b.rd k) : a = b := by
  ext i
  have := h i.val i.isLt
  rw [rd_val, rd_val] at this
  rw [this]


theorem family_bytes (a : InetAddress) (F : Nat) (hF : F < 256) (h : a.ss_family = F) :
    a.rd 0 = toByte F ∧ a.rd 1 = toByte (F / 256) := by
  unfold ss_family load16 at h
  have h0 := (a.rd 0).isLt
  have h1 := (a.rd (0 + 1)).isLt
  constructor
  · apply Fin.ext
    simp only [toByte]
    omega
  · apply Fin.ext
    simp only [toByte]
    have : (a.rd 1).val = (a.rd (0 + 1)).val := rfl
    omega

theorem port_bytes (a : InetAddress) (h : a.ss_family = AF_INET ∨ a.ss_family = AF_INET6) :
    a.port = 256 * (a.rd 2).val + (a.rd 3).val := by
  have h2 := (a.rd 2).isLt
  have h3 := (a.rd 3).isLt
  have e : a.port = ntoh (a.load16 2 % 65536) := by
    unfold port sin_port sin6_port OFF_PORT
    rcases h with h | h
    · rw [if_pos h]
    · have ne : ¬ (AF_INET6 = AF_INET) := by decide
      rw [h, if_neg ne, if_pos rfl]
  rw [e]
  unfold ntoh load16
  have : (a.rd (2 + 1)).val = (a.rd 3).val := rfl
  rw [this]
  generalize (a.rd 2).val = lo at *
  generalize (a.rd 3).val = hi at *
  have k1 : (lo + 256 * hi) % 65536 = lo + 256 * hi := by omega
  rw [k1]
  have k2 : (lo + 256 * hi) % 256 = lo := by omega
  have k3 : (lo + 256 * hi) / 256 = hi := by omega
  rw [k2, k3]
  omega


theorem port_wire_bytes (a : InetAddress) (h : a.ss_family = AF_INET ∨ a.ss_family = AF_INET6) :
    toByte (a.port % 65536 / 256) = a.rd 2 ∧ toByte (a.port % 65536) = a.rd 3 := by
  rw [port_bytes a h]
  have h2 := (a.rd 2).isLt
  have h3 := (a.rd 3).isLt
  constructor
  · apply Fin.ext
    simp only [toByte]
    omega
  · apply Fin.ext
    simp only [toByte]
    omega

theorem hton_bytes (hi lo : Byte) :
    toByte (hton (256 * hi.val + lo.val)) = hi ∧
    toByte (hton (256 * hi.val + lo.val) / 256) = lo := by
  have h2 := hi.isLt
  have h3 := lo.isLt
  unfold hton
  have k2 : (256 * hi.val + lo.val) % 256 = lo.val := by omega
  have k3 : (256 * hi.val + lo.val) / 256 % 256 = hi.val := by omega
  rw [k2, k3]
  constructor
  · apply Fin.ext
    simp only [toByte]
    omega
  · apply Fin.ext
    simp only [toByte]
    omega

theorem roundtrip_v4 {C : Nat} (x t : InetAddress) (pre : Buffer C)
    (h4 : x.ss_family = AF_INET) (hz : ∀ k, 8 ≤ k → x.rd k = 0) :
    t.deserialize (⟨pre.data ++ x.wireBytes⟩ : Buffer C) pre.data.length = (x, .ok 7) := by
  have wb : x.wireBytes = toByte 4 ::
      (x.bytesAt OFF_SIN_ADDR 4 ++ [toByte (x.port % 65536 / 256), toByte (x.port % 65536)]) := by
    simp [wireBytes, h4]
  have hl : (x.bytesAt OFF_SIN_ADDR 4).length = 4 := bytesAt_length _ _ _
  rw [deserialize_tag4 t _ _ (toByte 4) (by rw [wb]; exact wire_tag _ _ _) rfl
    (by simp [wb, hl])]
  simp only [wb]
  rw [wire_field _ _ _ _ 4 hl, wire_hi _ _ _ _ _ 4 hl, wire_lo _ _ _ _ _ 4 hl]
  obtain ⟨p2, p3⟩ := port_wire_bytes x (Or.inl h4)
  rw [p2, p3]
  obtain ⟨q2, q3⟩ := hton_bytes (x.rd 2) (x.rd 3)
  obtain ⟨f0, f1⟩ := family_bytes x AF_INET (by decide) h4
  congr 1
  apply ext_rd
  intro k hk
  rw [decoded_rd _ _ _ _ _ hk, q2, q3, bytesAt_getElem_opt]
  unfold OFF_SIN_ADDR
  by_cases k2 : k = 2
  · simp [k2]
  by_cases k3 : k = 3
  · simp [k3]
  by_cases k0 : k = 0
  · simp [k0, f0]
  by_cases k1 : k = 1
  · simp [k1, f1]
  rw [if_neg k2, if_neg k3, if_neg k0, if_neg k1]
  by_cases k8 : k < 8
  · have c1 : 4 ≤ k := by omega
    have c2 : k - 4 < 4 := by omega
    have c3 : 4 + (k - 4) = k := by omega
    simp [c1, c2, c3]
  · have c1 : 4 ≤ k := by omega
    have c2 : ¬ (k - 4 < 4) := by omega
    simp [c1, c2, hz k (by omega)]

theorem roundtrip_v6 {C : Nat} (x t : InetAddress) (pre : Buffer C)
    (h6 : x.ss_family = AF_INET6)
    (hz : ∀ k, (4 ≤ k ∧ k < 8) ∨ 24 ≤ k → x.rd k = 0) :
    t.deserialize (⟨pre.data ++ x.wireBytes⟩ : Buffer C) pre.data.length = (x, .ok 19) := by
  have ne : ¬ (AF_INET6 = AF_INET) := by decide
  have wb : x.wireBytes = toByte 6 ::
      (x.bytesAt OFF_SIN6_ADDR 16 ++ [toByte (x.port % 65536 / 256), toByte (x.port % 65536)]) := by
    simp [wireBytes, h6, ne]
  have hl : (x.bytesAt OFF_SIN6_ADDR 16).length = 16 := bytesAt_length _ _ _
  rw [deserialize_tag6 t _ _ (toByte 6) (by rw [wb]; exact wire_tag _ _ _) rfl
    (by simp [wb, hl])]
  simp only [wb]
  rw [wire_field _ _ _ _ 16 hl, wire_hi _ _ _ _ _ 16 hl, wire_lo _ _ _ _ _ 16 hl]
  obtain ⟨p2, p3⟩ := port_wire_bytes x (Or.inr h6)
  rw [p2, p3]
  obtain ⟨q2, q3⟩ := hton_bytes (x.rd 2) (x.rd 3)
  obtain ⟨f0, f1⟩ := family_bytes x AF_INET6 (by decide) h6
  congr 1
  apply ext_rd
  intro k hk
  rw [decoded_rd _ _ _ _ _ hk, q2, q3, bytesAt_getElem_opt]
  unfold OFF_SIN6_ADDR
  by_cases k2 : k = 2
  · simp [k2]
  by_cases k3 : k = 3
  · simp [k3]
  by_cases k0 : k = 0
  · simp [k0, f0]
  by_cases k1 : k = 1
  · simp [k1, f1]
  rw [if_neg k2, if_neg k3, if_neg k0, if_neg k1]
  by_cases k8 : k < 8
  · have c1 : ¬ (8 ≤ k) := by omega
    simp [c1, hz k (by omega)]
  · by_cases k24 : k < 24
    · have c1 : 8 ≤ k := by omega
      have c2 : k - 8 < 16 := by omega
      have c3 : 8 + (k - 8) = k := by omega
      simp [c1, c2, c3]
    · have c1 : 8 ≤ k := by omega
      have c2 : ¬ (k - 8 < 16) := by omega
      simp [c1, c2, hz k (by omega)]

theorem deserialize_tag4_short {C : Nat} (t : InetAddress) (b : Buffer C) (s : Nat) (tag : Byte)
    (h : b.data[s]? = some tag) (h4 : tag.val = 4) (hl : ¬ (s + 7 ≤ b.data.length)) :
    (t.deserialize b s).2 = .error .outOfRange := by
  by_cases e1 : s + 1 + 4 > b.data.length
  · simp [deserialize, memset_all, Buffer.index, h, h4, Buffer.field, e1]
  · have e2 : s + 1 + 4 + 2 > b.data.length := by omega
    simp only [deserialize, memset_all, Buffer.index, h, h4, Buffer.field, Buffer.at16, e1, e2]
    simp

theorem deserialize_tag6_short {C : Nat} (t : InetAddress) (b : Buffer C) (s : Nat) (tag : Byte)
    (h : b.data[s]? = some tag) (h6 : tag.val = 6) (hl : ¬ (s + 19 ≤ b.data.length)) :
    (t.deserialize b s).2 = .error .outOfRange := by
  by_cases e1 : s + 1 + 16 > b.data.length
  · simp [deserialize, memset_all, Buffer.index, h, h6, Buffer.field, e1]
  · have e2 : s + 1 + 16 + 2 > b.data.length := by omega
    simp only [deserialize, memset_all, Buffer.index, h, h6, Buffer.field, Buffer.at16, e1, e2]
    simp

theorem deserialize_ok_cases {C : Nat} (t : InetAddress) (b : Buffer C) (s n : Nat)
    (h : (t.deserialize b s).2 = .ok n) :
    ∃ tag, b.data[s]? = some tag ∧
      ((tag.val = 0 ∧ n = 1) ∨
       (tag.val = 4 ∧ s + 7 ≤ b.data.length ∧ n = 7) ∨
       (tag.val = 6 ∧ s + 19 ≤ b.data.length ∧ n = 19)) := by
  by_cases hs : b.data.length ≤ s
  · rw [deserialize_short t b s hs] at h
    simp at h
  · have hs1 : s < b.data.length := by omega
    refine ⟨b.data[s], List.getElem?_eq_getElem hs1, ?_⟩
    have ht := List.getElem?_eq_getElem hs1
    by_cases h0 : (b.data[s]).val = 0
    · rw [deserialize_tag0 t b s _ ht h0] at h
      simp at h
      exact Or.inl ⟨h0, h.symm⟩
    by_cases h4 : (b.data[s]).val = 4
    · by_cases hl : s + 7 ≤ b.data.length
      · rw [deserialize_tag4 t b s _ ht h4 hl] at h
        simp at h
        exact Or.inr (Or.inl ⟨h4, hl, h.symm⟩)
      · rw [deserialize_tag4_short t b s _ ht h4 hl] at h
        simp at h
    by_cases h6 : (b.data[s]).val = 6
    · by_cases hl : s + 19 ≤ b.data.length
      · rw [deserialize_tag6 t b s _ ht h6 hl] at h
        simp at h
        exact Or.inr (Or.inr ⟨h6, hl, h.symm⟩)
      · rw [deserialize_tag6_short t b s _ ht h6 hl] at h
        simp at h
    · rw [deserialize_badtag t b s _ ht h0 h4 h6] at h
      simp at h

theorem ofList_rd (l : List Byte) (k : Nat) (hl : l.length ≤ 128) :
    (ofList l).rd k = l.getD k 0 := by
  unfold rd ofList
  by_cases h : k < 128
  · simp [h]
  · have : l.length ≤ k := by omega
    simp [h, List.getElem?_eq_none this]

theorem rd_ge (a : InetAddress) (k : Nat) (h : 128 ≤ k) : a.rd k = 0 := by
  have : ¬ (k < 128) := by omega
  simp [rd, this]

theorem port_lt (a : InetAddress) : a.port < 65536 := by
  unfold port ntoh
  split_ifs <;> omega

theorem decoded_family (F off w : Nat) (src : List Byte) (hF : F < 256) (ho : 4 ≤ off) :
    (((nil.set_ss_family F).memcpy off src).set_sin_port w).ss_family = F := by
  unfold ss_family load16
  rw [decoded_rd _ _ _ _ 0 (by decide), decoded_rd _ _ _ _ (0 + 1) (by decide)]
  have e1 : ¬ (off ≤ 0) := by omega
  have e2 : ¬ (off ≤ 0 + 1) := by omega
  simp [e1, e2, toByte]
  omega

theorem decoded_port (F off : Nat) (src : List Byte) (hi lo : Byte)
    (hF : F = AF_INET ∨ F = AF_INET6) (ho : 4 ≤ off) :
    (((nil.set_ss_family F).memcpy off src).set_sin_port
      (hton (256 * hi.val + lo.val))).port = 256 * hi.val + lo.val := by
  have hF1 : F < 256 := by
    rcases hF with h | h <;> subst h <;> decide
  have fam := decoded_family F off (hton (256 * hi.val + lo.val)) src hF1 ho
  rw [port_bytes _ (by rw [fam]; exact hF)]
  rw [decoded_rd _ _ _ _ 2 (by decide), decoded_rd _ _ _ _ 3 (by decide)]
  obtain ⟨q2, q3⟩ := hton_bytes hi lo
  simp [q2, q3]

theorem decoded_bytesAt (F off w n : Nat) (src : List Byte) (hn : src.length = n)
    (ho : 4 ≤ off) (hfit : off + n ≤ 128) :
    (((nil.set_ss_family F).memcpy off src).set_sin_port w).bytesAt off n = src := by
  apply List.ext_getElem?
  intro k
  rw [bytesAt_getElem_opt]
  by_cases hk : k < n
  · rw [if_pos hk, decoded_rd _ _ _ _ _ (by omega)]
    have e1 : ¬ (off + k = 2) := by omega
    have e2 : ¬ (off + k = 3) := by omega
    have e3 : off ≤ off + k := by omega
    have e4 : off + k - off = k := by omega
    have e5 : src[k]? = some (src[k]) := List.getElem?_eq_getElem (by omega)
    simp [e1, e2, e4, e5]
  · rw [if_neg hk]
    exact (List.getElem?_eq_none (by omega)).symm

theorem decoded_zero (F off w n : Nat) (src : List Byte) (hn : src.length = n)
    (ho : 4 ≤ off) (k : Nat) (hk : (4 ≤ k ∧ k < off) ∨ off + n ≤ k) :
    (((nil.set_ss_family F).memcpy off src).set_sin_port w).rd k = 0 := by
  by_cases h128 : k < 128
  · rw [decoded_rd _ _ _ _ _ h128]
    have e1 : ¬ (k = 2) := by omega
    have e2 : ¬ (k = 3) := by omega
    have e3 : ¬ (k = 0) := by omega
    have e4 : ¬ (k = 1) := by omega
    rw [if_neg e1, if_neg e2, if_neg e3, if_neg e4]
    rcases hk with ⟨_, h⟩ | h
    · have : ¬ (off ≤ k) := by omega
      rw [if_neg this]
    · have e5 : src[k - off]? = none := List.getElem?_eq_none (by omega)
      simp [e5]
  · exact rd_ge _ _ (by omega)

theorem rd_nil (k : Nat) : nil.rd k = 0 := by
  unfold rd nil
  split <;> rfl

theorem rd_memcpy (a : InetAddress) (off : Nat) (src : List Byte) (k : Nat) (hk : k < 128) :
    (a.memcpy off src).rd k = if off ≤ k then (src[k - off]?).getD (a.rd k) else a.rd k := by
  simp [rd, hk, memcpy]

theorem rd_store16 (a : InetAddress) (off v k : Nat) (hk : k < 128) :
    (a.store16 off v).rd k =
      if k = off then toByte v else if k = off + 1 then toByte (v / 256) else a.rd k := by
  simp [rd, hk, store16]

theorem rd_copy_range (n : Nat) (f : Nat → Byte) (k : Nat) (hn : n ≤ 128) :
    (nil.memcpy 0 ((List.range n).map f)).rd k = if k < n then f k else 0 := by
  by_cases hk : k < 128
  · rw [rd_memcpy _ _ _ _ hk, rd_nil]
    simp only [Nat.zero_le, if_true, Nat.sub_zero, List.getElem?_map]
    by_cases h : k < n
    · simp [h, List.getElem?_range h]
    · have : (List.range n)[k]? = none := List.getElem?_eq_none (by simp; omega)
      simp [h, this]
  · have h : ¬ (k < n) := by omega
    rw [rd_ge _ _ (by omega), if_neg h]

theorem eq_nil_iff (a : InetAddress) : a = nil ↔ ∀ k, k < 128 → a.rd k = 0 := by
  constructor
  · intro h k _
    rw [h, rd_nil]
  · intro h
    apply ext_rd
    intro k hk
    rw [h k hk, rd_nil]

theorem family_store16_port (a : InetAddress) (v : Nat) :
    (a.store16 OFF_PORT v).ss_family = a.ss_family := by
  unfold ss_family load16 OFF_PORT
  rw [rd_store16 _ _ _ 0 (by decide), rd_store16 _ _ _ (0 + 1) (by decide)]
  simp

theorem setPort_family (a : InetAddress) (p : Nat) :
    (a.setPort p).ss_family = a.ss_family := by
  unfold setPort set_sin_port set_sin6_port
  split_ifs <;> rfl

theorem setPort_rd (a : InetAddress) (p k : Nat)
    (h : a.ss_family = AF_INET ∨ a.ss_family = AF_INET6) (hk : k < 128) :
    (a.setPort p).rd k =
      if k = 2 then toByte (hton (p % 65536))
      else if k = 3 then toByte (hton (p % 65536) / 256)
      else a.rd k := by
  have e : a.setPort p = a.store16 OFF_PORT (hton (p % 65536)) := by
    unfold setPort set_sin_port set_sin6_port
    rcases h with h | h
    · rw [if_pos h]
    · have ne : ¬ (AF_INET6 = AF_INET) := by decide
      rw [h, if_neg ne, if_pos rfl]
  rw [e, rd_store16 _ _ _ _ hk]
  rfl

theorem setPort_port (a : InetAddress) (p : Nat)
    (h : a.ss_family = AF_INET ∨ a.ss_family = AF_INET6) :
    (a.setPort p).port = p % 65536 := by
  have hf : (a.setPort p).ss_family = AF_INET ∨ (a.setPort p).ss_family = AF_INET6 := by
    rw [setPort_family]
    exact h
  rw [port_bytes _ hf, setPort_rd a p 2 h (by decide), setPort_rd a p 3 h (by decide)]
  simp only [if_true, show ¬ ((3 : Nat) = 2) by decide, if_false]
  have hq : p % 65536 < 65536 := Nat.mod_lt _ (by decide)
  generalize p % 65536 = q at *
  unfold hton toByte
  simp only
  have h0 := Nat.div_add_mod q 256
  have h1 : q % 256 < 256 := Nat.mod_lt _ (by decide)
  have h2 : q / 256 < 256 := by omega
  generalize q / 256 = hi at *
  generalize q % 256 = lo at *
  have h3 : hi % 256 = hi := Nat.mod_eq_of_lt h2
  rw [h3]
  have h4 : (lo * 256 + hi) / 256 = lo := by omega
  have h5 : (lo * 256 + hi) % 256 = hi := by omega
  rw [h4, h5, Nat.mod_eq_of_lt h1]
  omega

theorem setPort_rawIpData (a : InetAddress) (p : Nat) :
    (a.setPort p).rawIpData = a.rawIpData := by
  by_cases h : a.ss_family = AF_INET ∨ a.ss_family = AF_INET6
  · unfold rawIpData
    rw [setPort_family]
    have e : ∀ off n, 4 ≤ off → off + n ≤ 128 →
        (a.setPort p).bytesAt off n = a.bytesAt off n := by
      intro off n ho hn
      apply List.ext_getElem?
      intro k
      rw [bytesAt_getElem_opt, bytesAt_getElem_opt]
      by_cases hk : k < n
      · rw [if_pos hk, if_pos hk, setPort_rd a p _ h (by omega)]
        have e1 : ¬ (off + k = 2) := by omega
        have e2 : ¬ (off + k = 3) := by omega
        rw [if_neg e1, if_neg e2]
      · rw [if_neg hk, if_neg hk]
    rw [e OFF_SIN_ADDR 4 (by decide) (by decide), e OFF_SIN6_ADDR 16 (by decide) (by decide)]
  · have h4 : ¬ a.ss_family = AF_INET := fun k => h (Or.inl k)
    have h6 : ¬ a.ss_family = AF_INET6 := fun k => h (Or.inr k)
    simp [setPort, h4, h6]

theorem deserialize_invalid_state {C : Nat} (t : InetAddress) (b : Buffer C) (s : Nat)
    (h : (t.deserialize b s).2 = .error .invalidArgument) : (t.deserialize b s).1 = nil := by
  by_cases hs : b.data.length ≤ s
  · rw [deserialize_short t b s hs]
  · have hs1 : s < b.data.length := by omega
    have ht := List.getElem?_eq_getElem hs1
    by_cases h0 : (b.data[s]).val = 0
    · rw [deserialize_tag0 t b s _ ht h0]
    by_cases h4 : (b.data[s]).val = 4
    · by_cases hl : s + 7 ≤ b.data.length
      · rw [deserialize_tag4 t b s _ ht h4 hl] at h
        simp at h
      · rw [deserialize_tag4_short t b s _ ht h4 hl] at h
        simp at h
    by_cases h6 : (b.data[s]).val = 6
    · by_cases hl : s + 19 ≤ b.data.length
      · rw [deserialize_tag6 t b s _ ht h6 hl] at h
        simp at h
      · rw [deserialize_tag6_short t b s _ ht h6 hl] at h
        simp at h
    · rw [deserialize_badtag t b s _ ht h0 h4 h6]

theorem deserialize_wire {C : Nat} (x t : InetAddress) (pre : Buffer C) :
    (t.deserialize (⟨pre.data ++ x.wireBytes⟩ : Buffer C) pre.data.length).2
      = .ok x.wireLen := by
  have ne : ¬ (AF_INET6 = AF_INET) := by decide
  by_cases h4 : x.ss_family = AF_INET
  · have wb : x.wireBytes = toByte 4 ::
        (x.bytesAt OFF_SIN_ADDR 4 ++ [toByte (x.port % 65536 / 256), toByte (x.port % 65536)]) := by
      simp [wireBytes, h4]
    have hl : (x.bytesAt OFF_SIN_ADDR 4).length = 4 := bytesAt_length _ _ _
    rw [deserialize_tag4 t _ _ (toByte 4) (by rw [wb]; exact wire_tag _ _ _) rfl
      (by simp [wb, hl])]
    simp [wireLen, h4]
  by_cases h6 : x.ss_family = AF_INET6
  · have wb : x.wireBytes = toByte 6 ::
        (x.bytesAt OFF_SIN6_ADDR 16 ++ [toByte (x.port % 65536 / 256), toByte (x.port % 65536)]) := by
      simp [wireBytes, h6, ne]
    have hl : (x.bytesAt OFF_SIN6_ADDR 16).length = 16 := bytesAt_length _ _ _
    rw [deserialize_tag6 t _ _ (toByte 6) (by rw [wb]; exact wire_tag _ _ _) rfl
      (by simp [wb, hl])]
    simp [wireLen, h6, ne]
  · have wb : x.wireBytes = [toByte 0] := by
      simp [wireBytes, h4, h6]
    rw [deserialize_tag0 t _ _ (toByte 0) (by rw [wb]; exact wire_tag _ _ _) rfl]
    simp [wireLen, h4, h6]

theorem family_memcpy (a : InetAddress) (off : Nat) (src : List Byte) (ho : 2 ≤ off) :
    (a.memcpy off src).ss_family = a.ss_family := by
  unfold ss_family load16
  rw [rd_memcpy _ _ _ 0 (by decide), rd_memcpy _ _ _ (0 + 1) (by decide)]
  have e1 : ¬ (off ≤ 0) := by omega
  have e2 : ¬ (off ≤ 0 + 1) := by omega
  rw [if_neg e1, if_neg e2]

theorem deserialize_state_cases {C : Nat} (t : InetAddress) (b : Buffer C) (s : Nat) :
    (t.deserialize b s).1 = nil ∨ (t.deserialize b s).1.ss_family = AF_INET ∨
      (t.deserialize b s).1.ss_family = AF_INET6 := by
  by_cases hs : b.data.length ≤ s
  · rw [deserialize_short t b s hs]
    exact Or.inl rfl
  · have hs1 : s < b.data.length := by omega
    have ht := List.getElem?_eq_getElem hs1
    by_cases h0 : (b.data[s]).val = 0
    · rw [deserialize_tag0 t b s _ ht h0]
      exact Or.inl rfl
    by_cases h4 : (b.data[s]).val = 4
    · refine Or.inr (Or.inl ?_)
      by_cases e1 : s + 1 + 4 > b.data.length
      · simp only [deserialize, memset_all, Buffer.index, ht, h4, Buffer.field, e1]
        rfl
      · by_cases e2 : s + 1 + 4 + 2 > b.data.length
        · simp only [deserialize, memset_all, Buffer.index, ht, h4, Buffer.field,
            Buffer.at16, e1, e2]
          exact family_memcpy _ _ _ (by decide)
        · rw [deserialize_tag4 t b s _ ht h4 (by omega)]
          exact decoded_family _ _ _ _ (by decide) (by decide)
    by_cases h6 : (b.data[s]).val = 6
    · refine Or.inr (Or.inr ?_)
      by_cases e1 : s + 1 + 16 > b.data.length
      · simp only [deserialize, memset_all, Buffer.index, ht, h6, Buffer.field, e1]
        rfl
      · by_cases e2 : s + 1 + 16 + 2 > b.data.length
        · simp only [deserialize, memset_all, Buffer.index, ht, h6, Buffer.field,
            Buffer.at16, e1, e2]
          exact family_memcpy _ _ _ (by decide)
        · rw [deserialize_tag6 t b s _ ht h6 (by omega)]
          exact decoded_family _ _ _ _ (by decide) (by decide)
    · rw [deserialize_badtag t b s _ ht h0 h4 h6]
      exact Or.inl rfl

theorem rd_copy_fn {n : Nat} (a : InetAddress) (f : Fin n → Byte) (hn : n ≤ 128)
    (k : Nat) :
    ((a.memset 0 SIZEOF_INETADDRESS).memcpy 0 ((List.range n).map (readFn f))).rd k
      = readFn f k := by
  rw [memset_all, rd_copy_range n (readFn f) k hn]
  by_cases h : k < n
  · rw [if_pos h]
  · rw [if_neg h]
    simp [readFn, h]

theorem rd_assign_sockaddr_storage (self : InetAddress) (ss : SockaddrStorage) (k : Nat) :
    (self.assign_sockaddr_storage ss).rd k = readFn ss.mem k := by
  unfold assign_sockaddr_storage SIZEOF_INETADDRESS
  by_cases hk : k < 128
  · rw [rd_memcpy _ _ _ _ hk]
    simp [List.getElem?_range hk]
  · rw [rd_ge _ _ (by omega)]
    simp [readFn, hk]

theorem noneIsZero_of_copy {n : Nat} (a : InetAddress) (f : Fin n → Byte) (hn : n ≤ 128)
    (h : ∀ k, a.rd k = readFn f k) :
    a.NoneIsZero ↔
      ((readFn f 0).val + 256 * (readFn f 1).val = 0 → ∀ i, f i = 0) := by
  have fam : a.ss_family = (readFn f 0).val + 256 * (readFn f 1).val := by
    unfold ss_family load16
    rw [h 0, h (0 + 1)]
  have hz : a = nil ↔ ∀ i, f i = 0 := by
    rw [eq_nil_iff]
    constructor
    · intro hk i
      have e := hk i.val (by have := i.isLt; omega)
      rw [h i.val] at e
      simpa [readFn] using e
    · intro hi k _
      rw [h k]
      unfold readFn
      split
      · exact hi _
      · rfl
  unfold NoneIsZero
  rw [fam, hz]

theorem assign_sockaddr_other (self : InetAddress) (sa : Sockaddr)
    (h4 : sa.sa_family ≠ AF_INET) (h6 : sa.sa_family ≠ AF_INET6) :
    self.assign_sockaddr sa = nil := by
  simp [assign_sockaddr, h4, h6, memset_all]

theorem rd_assign_sockaddr_v4 (self : InetAddress) (sa : Sockaddr)
    (h4 : sa.sa_family = AF_INET) (k : Nat) :
    (self.assign_sockaddr sa).rd k = if k < 16 then sa.mem k else 0 := by
  simp only [assign_sockaddr, h4, if_true, memset_all]
  exact rd_copy_range 16 sa.mem k (by decide)

theorem rd_assign_sockaddr_v6 (self : InetAddress) (sa : Sockaddr)
    (h6 : sa.sa_family = AF_INET6) (k : Nat) :
    (self.assign_sockaddr sa).rd k = if k < 28 then sa.mem k else 0 := by
  have ne : ¬ (AF_INET6 = AF_INET) := by decide
  simp only [assign_sockaddr, h6, ne, if_false, if_true, memset_all]
  exact rd_copy_range 28 sa.mem k (by decide)

theorem family_assign_sockaddr (self : InetAddress) (sa : Sockaddr)
    (h : sa.sa_family = AF_INET ∨ sa.sa_family = AF_INET6) :
    (self.assign_sockaddr sa).ss_family = sa.sa_family := by
  unfold ss_family load16 Sockaddr.sa_family
  rcases h with h | h
  · rw [rd_assign_sockaddr_v4 self sa h, rd_assign_sockaddr_v4 self sa h]
    simp
  · rw [rd_assign_sockaddr_v6 self sa h, rd_assign_sockaddr_v6 self sa h]
    simp

theorem noneIsZero_setPort (a : InetAddress) (p : Nat) (h : a.NoneIsZero) :
    (a.setPort p).NoneIsZero := by
  intro hf
  rw [setPort_family] at hf
  have e := h hf
  subst e
  rfl

theorem noneIsZero_assign_sockaddr (self : InetAddress) (sa : Sockaddr) :
    (self.assign_sockaddr sa).NoneIsZero := by
  intro hf
  by_cases h4 : sa.sa_family = AF_INET
  · rw [family_assign_sockaddr self sa (Or.inl h4), h4] at hf
    exact absurd hf (by decide)
  by_cases h6 : sa.sa_family = AF_INET6
  · rw [family_assign_sockaddr self sa (Or.inr h6), h6] at hf
    exact absurd hf (by decide)
  · exact assign_sockaddr_other self sa h4 h6

theorem noneIsZero_deserialize {C : Nat} (t : InetAddress) (b : Buffer C) (s : Nat) :
    (t.deserialize b s).1.NoneIsZero := by
  intro hf
  rcases deserialize_state_cases t b s with h | h | h
  · exact h
  · rw [h] at hf
    exact absurd hf (by decide)
  · rw [h] at hf
    exact absurd hf (by decide)

end InetAddress

theorem consumed_bytes (l : List Byte) (s n : Nat) (tag : Byte) (h : l[s]? = some tag)
    (hl : s + n + 3 ≤ l.length) :
    (l.drop s).take (n + 3) =
      tag :: ((l.drop (s + 1)).take n ++ [l.getD (s + n + 1) 0, l.getD (s + n + 2) 0]) := by
  have hs : s < l.length := by omega
  have ht : l[s] = tag := by
    rw [List.getElem?_eq_getElem hs] at h
    exact Option.some.inj h
  have h1 : s + n + 1 < l.length := by omega
  have h2 : s + n + 2 < l.length := by omega
  have e2 : List.take 2 (List.drop (s + n + 1) l) = [l[s + n + 1], l[s + n + 2]] := by
    rw [List.drop_eq_getElem_cons h1, List.drop_eq_getElem_cons h2]
    rfl
  rw [List.drop_eq_getElem_cons hs, ht]
  rw [show n + 3 = (n + 2) + 1 from rfl, List.take_succ_cons, List.take_add, List.drop_drop]
  rw [show s + 1 + n = s + n + 1 by omega, e2]
  simp [List.getD_eq_getElem?_getD, List.getElem?_eq_getElem h1, List.getElem?_eq_getElem h2]

theorem consumed_tag (l : List Byte) (s : Nat) (tag : Byte) (h : l[s]? = some tag) :
    (l.drop s).take 1 = [tag] := by
  have hs : s < l.length := by
    by_contra hn
    rw [List.getElem?_eq_none (by omega)] at h
    exact absurd h (by simp)
  have ht : l[s] = tag := by
    rw [List.getElem?_eq_getElem hs] at h
    exact Option.some.inj h
  rw [List.drop_eq_getElem_cons hs, ht]
  simp

namespace InetAddress

theorem decoded_canonical_v4 (src : List Byte) (w : Nat) (hn : src.length = 4) :
    (((nil.set_ss_family AF_INET).memcpy OFF_SIN_ADDR src).set_sin_port w).Canonical := by
  refine Or.inl ⟨decoded_family _ _ _ _ (by decide) (by decide), ?_⟩
  intro k _ hk
  exact decoded_zero _ OFF_SIN_ADDR _ 4 _ hn (by decide) k
    (Or.inr (by unfold OFF_SIN_ADDR; omega))

theorem decoded_canonical_v6 (src : List Byte) (w : Nat) (hn : src.length = 16) :
    (((nil.set_ss_family AF_INET6).memcpy OFF_SIN6_ADDR src).set_sin_port w).Canonical := by
  refine Or.inr ⟨decoded_family _ _ _ _ (by decide) (by decide), ?_⟩
  intro k _ hk
  refine decoded_zero _ OFF_SIN6_ADDR _ 16 _ hn (by decide) k ?_
  unfold OFF_SIN6_ADDR
  omega

theorem port_split (hi lo : Byte) :
    toByte ((256 * hi.val + lo.val) % 65536 / 256) = hi ∧
    toByte ((256 * hi.val + lo.val) % 65536) = lo := by
  have h2 := hi.isLt
  have h3 := lo.isLt
  constructor
  · apply Fin.ext
    simp only [toByte]
    omega
  · apply Fin.ext
    simp only [toByte]
    omega

theorem decoded_wireBytes_v4 (src : List Byte) (hi lo : Byte) (hn : src.length = 4) :
    (((nil.set_ss_family AF_INET).memcpy OFF_SIN_ADDR src).set_sin_port
      (hton (256 * hi.val + lo.val))).wireBytes = toByte 4 :: (src ++ [hi, lo]) := by
  unfold wireBytes
  rw [decoded_family _ _ _ _ (by decide) (by decide), if_pos rfl,
    decoded_bytesAt _ _ _ 4 _ hn (by decide) (by decide),
    decoded_port _ _ _ _ _ (Or.inl rfl) (by decide), (port_split hi lo).1, (port_split hi lo).2]

theorem decoded_wireBytes_v6 (src : List Byte) (hi lo : Byte) (hn : src.length = 16) :
    (((nil.set_ss_family AF_INET6).memcpy OFF_SIN6_ADDR src).set_sin_port
      (hton (256 * hi.val + lo.val))).wireBytes = toByte 6 :: (src ++ [hi, lo]) := by
  have ne : ¬ (AF_INET6 = AF_INET) := by decide
  unfold wireBytes
  rw [decoded_family _ _ _ _ (by decide) (by decide), if_neg ne, if_pos rfl,
    decoded_bytesAt _ _ _ 16 _ hn (by decide) (by decide),
    decoded_port _ _ _ _ _ (Or.inr rfl) (by decide), (port_split hi lo).1, (port_split hi lo).2]

theorem roundtrip_any {C : Nat} (y t : InetAddress) (hy : y = nil ∨ y.Canonical) :
    (t.deserialize (⟨y.wireBytes⟩ : Buffer C) 0).1 = y := by
  have key : ∀ x : InetAddress,
      (t.deserialize (⟨x.wireBytes⟩ : Buffer C) 0)
        = (t.deserialize (⟨(⟨[]⟩ : Buffer C).data ++ x.wireBytes⟩ : Buffer C)
            (⟨[]⟩ : Buffer C).data.length) := by
    intro x
    simp
  rcases hy with h | ⟨h4, hz⟩ | ⟨h6, hz⟩
  · subst h
    have wb : nil.wireBytes = [toByte 0] := by decide
    rw [wb, deserialize_tag0 t (⟨[toByte 0]⟩ : Buffer C) 0 (toByte 0) rfl rfl]
  · have hz1 : ∀ k, 8 ≤ k → y.rd k = 0 := by
      intro k hk
      by_cases h : k < 128
      · exact hz k h hk
      · exact rd_ge y k (by omega)
    rw [key, roundtrip_v4 y t ⟨[]⟩ h4 hz1]
  · have hz1 : ∀ k, (4 ≤ k ∧ k < 8) ∨ 24 ≤ k → y.rd k = 0 := by
      intro k hk
      by_cases h : k < 128
      · exact hz k h hk
      · exact rd_ge y k (by omega)
    rw [key, roundtrip_v6 y t ⟨[]⟩ h6 hz1]

theorem serialize_empty_wireBytes {D : Nat} (y : InetAddress) (w : List Byte)
    (h : y.serialize (⟨[]⟩ : Buffer D) = (⟨w⟩, .ok ())) : y.wireBytes = w := by
  have room := serialize_ok_room y ⟨[]⟩ ⟨w⟩ h
  rw [serialize_of_room y ⟨[]⟩ room] at h
  have e := congrArg (fun r : Buffer D × Except Exn Unit => r.1.data) h
  simpa using e

theorem decode_reencode {C : Nat} (t : InetAddress) (b : Buffer C) (s n : Nat)
    (h : (t.deserialize b s).2 = .ok n) :
    ((t.deserialize b s).1 = nil ∨ (t.deserialize b s).1.Canonical) ∧
    (t.deserialize b s).1.wireBytes = (b.data.drop s).take n ∧
    (t.deserialize b s).1.wireLen = n := by
  obtain ⟨tag, ht, hc⟩ := deserialize_ok_cases t b s n h
  rcases hc with ⟨h0, hn⟩ | ⟨h4, hl, hn⟩ | ⟨h6, hl, hn⟩
  · subst hn
    rw [deserialize_tag0 t b s tag ht h0, consumed_tag _ _ _ ht]
    have e : tag = toByte 0 := Fin.ext h0
    rw [e]
    exact ⟨Or.inl rfl, by decide, by decide⟩
  · subst hn
    have hsrc : ((b.data.drop (s + 1)).take 4).length = 4 := by
      simp; omega
    have e : tag = toByte 4 := Fin.ext h4
    rw [deserialize_tag4 t b s tag ht h4 hl, decoded_wireBytes_v4 _ _ _ hsrc,
      consumed_bytes b.data s 4 tag ht (by omega), e]
    refine ⟨Or.inr (decoded_canonical_v4 _ _ hsrc), rfl, ?_⟩
    simp [wireLen, decoded_family _ _ _ _ (show AF_INET < 256 by decide)
      (show 4 ≤ OFF_SIN_ADDR by decide)]
  · subst hn
    have ne : ¬ (AF_INET6 = AF_INET) := by decide
    have hsrc : ((b.data.drop (s + 1)).take 16).length = 16 := by
      simp; omega
    have e : tag = toByte 6 := Fin.ext h6
    rw [deserialize_tag6 t b s tag ht h6 hl, decoded_wireBytes_v6 _ _ _ hsrc,
      consumed_bytes b.data s 16 tag ht (by omega), e]
    refine ⟨Or.inr (decoded_canonical_v6 _ _ hsrc), rfl, ?_⟩
    simp [wireLen, ne, decoded_family _ _ _ _ (show AF_INET6 < 256 by decide)
      (show 4 ≤ OFF_SIN6_ADDR by decide)]

end InetAddress

theorem beValue_two (a : Nat) : beValue [toByte (a / 2 ^ 8), toByte a] = a % 2 ^ 16 := by
  simp only [beValue, List.foldl, toByte]
  omega

theorem beValue_five (a : Nat) :
    beValue [toByte (a / 2 ^ 32), toByte (a / 2 ^ 24), toByte (a / 2 ^ 16),
      toByte (a / 2 ^ 8), toByte a] = a % 2 ^ 40 := by
  simp only [beValue, List.foldl, toByte]
  have h1 : a / 2 ^ 8 / 256 = a / 2 ^ 16 := by rw [Nat.div_div_eq_div_mul]; norm_num
  have h2 : a / 2 ^ 16 / 256 = a / 2 ^ 24 := by rw [Nat.div_div_eq_div_mul]; norm_num
  have h3 : a / 2 ^ 24 / 256 = a / 2 ^ 32 := by rw [Nat.div_div_eq_div_mul]; norm_num
  have h4 : a / 2 ^ 32 / 256 = a / 2 ^ 40 := by rw [Nat.div_div_eq_div_mul]; norm_num
  omega

theorem beValue_high40 (n : Nat) :
    beValue [toByte (n / 2 ^ 56), toByte (n / 2 ^ 48), toByte (n / 2 ^ 40),
      toByte (n / 2 ^ 32), toByte (n / 2 ^ 24)] = n % 2 ^ 64 / 2 ^ 24 := by
  have h1 : n / 2 ^ 56 = n / 2 ^ 24 / 2 ^ 32 := by rw [Nat.div_div_eq_div_mul]; norm_num
  have h2 : n / 2 ^ 48 = n / 2 ^ 24 / 2 ^ 24 := by rw [Nat.div_div_eq_div_mul]; norm_num
  have h3 : n / 2 ^ 40 = n / 2 ^ 24 / 2 ^ 16 := by rw [Nat.div_div_eq_div_mul]; norm_num
  have h4 : n / 2 ^ 32 = n / 2 ^ 24 / 2 ^ 8 := by rw [Nat.div_div_eq_div_mul]; norm_num
  rw [h1, h2, h3, h4, beValue_five]
  rw [show (2 : Nat) ^ 64 = 2 ^ 24 * 2 ^ 40 by norm_num, Nat.mod_mul_right_div_self]

/-! ## Theorems -/

open InetAddress

/-- C10: the scope categories are exactly the eight enumerators, and their
numeric ranks are 0 to 7 in the order none, multicast, loopback,
pseudo-private, global, link-local, shared, private, without gap or
duplicate; by rank, private is above shared, shared above link-local and
link-local above global. -/
theorem ipScope_rank_order :
    [IpScope.IP_SCOPE_NONE, IpScope.IP_SCOPE_MULTICAST, IpScope.IP_SCOPE_LOOPBACK,
      IpScope.IP_SCOPE_PSEUDOPRIVATE, IpScope.IP_SCOPE_GLOBAL, IpScope.IP_SCOPE_LINK_LOCAL,
      IpScope.IP_SCOPE_SHARED, IpScope.IP_SCOPE_PRIVATE].map IpScope.toNat
        = [0, 1, 2, 3, 4, 5, 6, 7] ∧
    (∀ s : IpScope, s ∈ [IpScope.IP_SCOPE_NONE, IpScope.IP_SCOPE_MULTICAST,
      IpScope.IP_SCOPE_LOOPBACK, IpScope.IP_SCOPE_PSEUDOPRIVATE, IpScope.IP_SCOPE_GLOBAL,
      IpScope.IP_SCOPE_LINK_LOCAL, IpScope.IP_SCOPE_SHARED, IpScope.IP_SCOPE_PRIVATE]) ∧
    Function.Injective IpScope.toNat ∧
    (∀ s : IpScope, s.toNat < 8) ∧
    IpScope.IP_SCOPE_GLOBAL.toNat < IpScope.IP_SCOPE_LINK_LOCAL.toNat ∧
    IpScope.IP_SCOPE_LINK_LOCAL.toNat < IpScope.IP_SCOPE_SHARED.toNat ∧
    IpScope.IP_SCOPE_SHARED.toNat < IpScope.IP_SCOPE_PRIVATE.toNat := by
  refine ⟨rfl, ?_, ?_, ?_, by decide, by decide, by decide⟩
  · intro s; cases s <;> simp
  · intro s t h; cases s <;> cases t <;> first | rfl | (simp [IpScope.toNat] at h)
  · intro s; cases s <;> simp [IpScope.toNat]

/-- C8: on an endpoint whose family is neither IPv4 nor IPv6, `setPort`
leaves the whole storage as it was, for every port argument, and `port()`
returns 0 afterwards. -/
theorem setPort_noop_of_non_ip (a : InetAddress) (p : Nat)
    (h4 : a.isV4 = false) (h6 : a.isV6 = false) :
    a.setPort p = a ∧ (∀ i, (a.setPort p).mem i = a.mem i) ∧ (a.setPort p).port = 0 := by
  simp [isV4, isV6] at h4 h6
  simp [setPort, port, h4, h6]

/-- Witness of C8 on the default-constructed endpoint with port argument 9993. -/
theorem setPort_noop_of_non_ip_witness :
    nil.isV4 = false ∧ nil.isV6 = false ∧
    nil.setPort 9993 = nil ∧ (nil.setPort 9993).port = 0 :=
  ⟨by decide, by decide, (setPort_noop_of_non_ip nil 9993 (by decide) (by decide)).1,
    (setPort_noop_of_non_ip nil 9993 (by decide) (by decide)).2.2⟩

/-- C3, evaluated on the code: `ipsEqual` looks only at the family of the
endpoint it is called on, so 0.0.0.0 compares equal to `::` in both orders
and to the none endpoint, although the families differ; two none endpoints
compare unequal. -/
theorem ipsEqual_cross_family_true :
    exV4Any.isV4 = true ∧ exV6Any.isV6 = true ∧ nil.toBool = false ∧
    exV4Any.ipsEqual exV6Any = true ∧ exV6Any.ipsEqual exV4Any = true ∧
    exV4Any.ipsEqual nil = true ∧ exV6Any.ipsEqual nil = true ∧
    nil.ipsEqual nil = false := by
  decide

/-- C9: for two endpoints of the same IP family, `ipsEqual` is true exactly
when their address bytes (4 for IPv4, 16 for IPv6) are identical, whatever
the ports; so on endpoints of one family it is reflexive, symmetric and
transitive. -/
theorem ipsEqual_same_family (a b c : InetAddress)
    (hab : (a.isV4 = true ∧ b.isV4 = true) ∨ (a.isV6 = true ∧ b.isV6 = true))
    (hbc : (b.isV4 = true ∧ c.isV4 = true) ∨ (b.isV6 = true ∧ c.isV6 = true)) :
    (a.ipsEqual b = true ↔ a.rawIpData = b.rawIpData) ∧
    a.ipsEqual a = true ∧
    (a.ipsEqual b = true → b.ipsEqual a = true) ∧
    (a.ipsEqual b = true → b.ipsEqual c = true → a.ipsEqual c = true) := by
  have key : ∀ x y : InetAddress,
      (x.isV4 = true ∧ y.isV4 = true) ∨ (x.isV6 = true ∧ y.isV6 = true) →
      (x.ipsEqual y = true ↔ x.rawIpData = y.rawIpData) := by
    intro x y h
    have ne : ¬ (AF_INET6 = AF_INET) := by decide
    rcases h with ⟨hx, hy⟩ | ⟨hx, hy⟩
    · simp only [isV4, beq_iff_eq] at hx hy
      simp [ipsEqual, rawIpData, hx, hy, s_addr, load32_inj]
    · simp only [isV6, beq_iff_eq] at hx hy
      simp [ipsEqual, rawIpData, hx, hy, ne, s6_addr]
  have haa : (a.isV4 = true ∧ a.isV4 = true) ∨ (a.isV6 = true ∧ a.isV6 = true) := by
    rcases hab with ⟨h, _⟩ | ⟨h, _⟩
    · exact Or.inl ⟨h, h⟩
    · exact Or.inr ⟨h, h⟩
  have hba : (b.isV4 = true ∧ a.isV4 = true) ∨ (b.isV6 = true ∧ a.isV6 = true) := by
    rcases hab with ⟨h, k⟩ | ⟨h, k⟩
    · exact Or.inl ⟨k, h⟩
    · exact Or.inr ⟨k, h⟩
  have hac : (a.isV4 = true ∧ c.isV4 = true) ∨ (a.isV6 = true ∧ c.isV6 = true) := by
    rcases hab with ⟨h, k⟩ | ⟨h, k⟩
    · rcases hbc with ⟨_, m⟩ | ⟨l, _⟩
      · exact Or.inl ⟨h, m⟩
      · simp only [isV4, isV6, beq_iff_eq] at k l
        rw [k] at l
        exact absurd l (by decide)
    · rcases hbc with ⟨l, _⟩ | ⟨_, m⟩
      · simp only [isV4, isV6, beq_iff_eq] at k l
        rw [k] at l
        exact absurd l (by decide)
      · exact Or.inr ⟨h, m⟩
  refine ⟨key a b hab, (key a a haa).2 rfl, ?_, ?_⟩
  · intro h
    exact (key b a hba).2 ((key a b hab).1 h).symm
  · intro h1 h2
    exact (key a c hac).2 (((key a b hab).1 h1).trans ((key b c hbc).1 h2))

/-- Witness of C9: 1.2.3.4 port 80 and 1.2.3.4 port 443 have equal IPs. -/
theorem ipsEqual_same_family_witness :
    (exV4.setPort 443).port = 443 ∧ exV4.port = 80 ∧
    (exV4.ipsEqual (exV4.setPort 443) = true ↔
      exV4.rawIpData = (exV4.setPort 443).rawIpData) ∧
    exV4.ipsEqual (exV4.setPort 443) = true :=
  ⟨by decide, by decide,
    (ipsEqual_same_family exV4 (exV4.setPort 443) exV4 (Or.inl ⟨by decide, by decide⟩)
      (Or.inl ⟨by decide, by decide⟩)).1,
    by decide⟩

/-- C1: wire round trip. For every IPv4 or IPv6 endpoint `x` whose storage
outside family, address bytes and port is zero, and every buffer `pre`: if
`serialize` appended the record of `x` to `pre`, giving `b1`, then
`deserialize` at the offset where the record starts succeeds, whatever the
target held, and leaves the target equal to `x`, with the same family, the
same address bytes and the same `port()`. -/
theorem serialize_deserialize_roundtrip {C : Nat} (x t : InetAddress) (pre b1 : Buffer C)
    (hx : x.Canonical) (hs : x.serialize pre = (b1, .ok ())) :
    (t.deserialize b1 pre.data.length).1 = x ∧
    (∃ n, (t.deserialize b1 pre.data.length).2 = .ok n) ∧
    (t.deserialize b1 pre.data.length).1.ss_family = x.ss_family ∧
    (t.deserialize b1 pre.data.length).1.rawIpData = x.rawIpData ∧
    (t.deserialize b1 pre.data.length).1.port = x.port := by
  have room := serialize_ok_room x pre b1 hs
  rw [serialize_of_room x pre room] at hs
  have hb : b1 = ⟨pre.data ++ x.wireBytes⟩ := (congrArg Prod.fst hs).symm
  subst hb
  rcases hx with ⟨h4, hz⟩ | ⟨h6, hz⟩
  · have hz1 : ∀ k, 8 ≤ k → x.rd k = 0 := by
      intro k hk
      by_cases h : k < 128
      · exact hz k h hk
      · exact rd_ge x k (by omega)
    rw [roundtrip_v4 x t pre h4 hz1]
    exact ⟨rfl, ⟨7, rfl⟩, rfl, rfl, rfl⟩
  · have hz1 : ∀ k, (4 ≤ k ∧ k < 8) ∨ 24 ≤ k → x.rd k = 0 := by
      intro k hk
      by_cases h : k < 128
      · exact hz k h hk
      · exact rd_ge x k (by omega)
    rw [roundtrip_v6 x t pre h6 hz1]
    exact ⟨rfl, ⟨19, rfl⟩, rfl, rfl, rfl⟩

/-- Witness of C1: the IPv6 endpoint fd00:102:304:506:708:90a:b0c:d0e port
9993 appended after two bytes and decoded at offset 2 into a target that
held 1.2.3.4 port 80. -/
theorem serialize_deserialize_roundtrip_witness :
    (exV4.deserialize (⟨[9, 9, 6, 0xfd, 0, 1, 2, 3, 4, 5, 6, 7, 8, 9, 10, 11, 12, 13, 14,
        0x27, 0x09]⟩ : Buffer 32) 2).1 = exV6 ∧
    (exV4.deserialize (⟨[9, 9, 6, 0xfd, 0, 1, 2, 3, 4, 5, 6, 7, 8, 9, 10, 11, 12, 13, 14,
        0x27, 0x09]⟩ : Buffer 32) 2).1.port = exV6.port :=
  have h := serialize_deserialize_roundtrip exV6 exV4 (⟨[9, 9]⟩ : Buffer 32)
    ⟨[9, 9, 6, 0xfd, 0, 1, 2, 3, 4, 5, 6, 7, 8, 9, 10, 11, 12, 13, 14, 0x27, 0x09]⟩
    (by decide) rfl
  ⟨h.1, h.2.2.2.2⟩

/-- C2 as stated fails: decoding the IPv4 record 0x04,1,2,3,4,0,80 at offset
0 succeeds and returns 7, which is none of 1, 3 and 19. -/
theorem deserialize_count_counterexample :
    ∃ n, (nil.deserialize (⟨[4, 1, 2, 3, 4, 0, 80]⟩ : Buffer 16) 0).2 = .ok n ∧
      ¬ (n = 1 ∨ n = 3 ∨ n = 19) :=
  ⟨7, rfl, by decide⟩

/-- C2, amended: on every successful decode at any start offset the value
returned is the number of bytes consumed, all of them inside the buffer,
and it is 1 for the tag 0x00, 7 for the tag 0x04 and 19 for the tag 0x06. -/
theorem deserialize_count {C : Nat} (t : InetAddress) (b : Buffer C) (s n : Nat)
    (h : (t.deserialize b s).2 = .ok n) :
    s + n ≤ b.data.length ∧
    ∃ tag, b.data[s]? = some tag ∧
      ((tag.val = 0 ∧ n = 1) ∨ (tag.val = 4 ∧ n = 7) ∨ (tag.val = 6 ∧ n = 19)) := by
  obtain ⟨tag, ht, hc⟩ := deserialize_ok_cases t b s n h
  have hs : s < b.data.length := by
    by_contra hn
    rw [List.getElem?_eq_none (by omega)] at ht
    exact absurd ht (by simp)
  rcases hc with ⟨h0, hn⟩ | ⟨h4, hl, hn⟩ | ⟨h6, hl, hn⟩
  · exact ⟨by omega, tag, ht, Or.inl ⟨h0, hn⟩⟩
  · exact ⟨by omega, tag, ht, Or.inr (Or.inl ⟨h4, hn⟩)⟩
  · exact ⟨by omega, tag, ht, Or.inr (Or.inr ⟨h6, hn⟩)⟩

/-- Witness of C2, amended: an IPv4 record decoded at offset 2 of a buffer of
9 bytes. -/
theorem deserialize_count_witness :
    2 + 7 ≤ ([9, 9, 4, 1, 2, 3, 4, 0, 80] : List Byte).length ∧
    ∃ tag, ([9, 9, 4, 1, 2, 3, 4, 0, 80] : List Byte)[2]? = some tag ∧
      ((tag.val = 0 ∧ 7 = 1) ∨ (tag.val = 4 ∧ 7 = 7) ∨ (tag.val = 6 ∧ 7 = 19)) :=
  deserialize_count nil (⟨[9, 9, 4, 1, 2, 3, 4, 0, 80]⟩ : Buffer 16) 2 7 rfl

/-- C4: `deserialize` throws `std::invalid_argument` exactly when the byte
at the start offset is none of 0x00, 0x04 and 0x06; and when the bytes the
tag announces are present in the buffer (6 after 0x04, 18 after 0x06), it
fails only in that case. -/
theorem deserialize_invalid_tag {C : Nat} (t : InetAddress) (b : Buffer C) (s : Nat)
    (tag : Byte) (h : b.data[s]? = some tag) :
    ((t.deserialize b s).2 = .error .invalidArgument ↔
      (tag.val ≠ 0 ∧ tag.val ≠ 4 ∧ tag.val ≠ 6)) ∧
    ((tag.val = 4 → s + 7 ≤ b.data.length) → (tag.val = 6 → s + 19 ≤ b.data.length) →
      ((∃ e, (t.deserialize b s).2 = .error e) ↔
        (tag.val ≠ 0 ∧ tag.val ≠ 4 ∧ tag.val ≠ 6))) := by
  by_cases h0 : tag.val = 0
  · rw [deserialize_tag0 t b s tag h h0]
    simp [h0]
  by_cases h4 : tag.val = 4
  · constructor
    · by_cases hl : s + 7 ≤ b.data.length
      · rw [deserialize_tag4 t b s tag h h4 hl]
        simp [h4]
      · rw [deserialize_tag4_short t b s tag h h4 hl]
        simp [h4]
    · intro k4 _
      rw [deserialize_tag4 t b s tag h h4 (k4 h4)]
      simp [h4]
  by_cases h6 : tag.val = 6
  · constructor
    · by_cases hl : s + 19 ≤ b.data.length
      · rw [deserialize_tag6 t b s tag h h6 hl]
        simp [h6]
      · rw [deserialize_tag6_short t b s tag h h6 hl]
        simp [h6]
    · intro _ k6
      rw [deserialize_tag6 t b s tag h h6 (k6 h6)]
      simp [h6]
  · rw [deserialize_badtag t b s tag h h0 h4 h6]
    simp [h0, h4, h6]

/-- Witness of C4: the tag 0x05 at offset 1 is rejected with
`std::invalid_argument`. -/
theorem deserialize_invalid_tag_witness :
    ([0, 5, 1, 2, 3, 4, 0, 80] : List Byte)[1]? = some 5 ∧
    (exV4.deserialize (⟨[0, 5, 1, 2, 3, 4, 0, 80]⟩ : Buffer 16) 1).2
      = .error .invalidArgument :=
  ⟨rfl, (deserialize_invalid_tag exV4 (⟨[0, 5, 1, 2, 3, 4, 0, 80]⟩ : Buffer 16) 1 5 rfl).1.2
    (by decide)⟩

/-- C5: encode exactness. When the buffer has room for the record,
`serialize` returns and the buffer is the previous bytes followed by
exactly: the byte 0x00 for an endpoint that is neither IPv4 nor IPv6 (the
none endpoint among them); 0x04, the four address bytes and the port as
p/256, p%256 for IPv4; 0x06, the sixteen address bytes in order and the port
as p/256, p%256 for IPv6, where p is `port()`, below 65536. -/
theorem serialize_exact {C : Nat} (x : InetAddress) (b : Buffer C) :
    x.port / 256 < 256 ∧
    (x.isV4 = false → x.isV6 = false → b.data.length + 1 ≤ C →
      x.serialize b = (⟨b.data ++ [0]⟩, .ok ())) ∧
    (x.isV4 = true → b.data.length + 7 ≤ C →
      x.serialize b =
        (⟨b.data ++ [4, x.rd 4, x.rd 5, x.rd 6, x.rd 7,
            toByte (x.port / 256), toByte (x.port % 256)]⟩, .ok ())) ∧
    (x.isV6 = true → b.data.length + 19 ≤ C →
      x.serialize b =
        (⟨b.data ++ 6 :: (x.s6_addr ++ [toByte (x.port / 256), toByte (x.port % 256)])⟩,
          .ok ())) := by
  have hp := port_lt x
  have e1 : x.port % 65536 = x.port := Nat.mod_eq_of_lt hp
  have e2 : toByte x.port = toByte (x.port % 256) := by
    apply Fin.ext
    simp [toByte]
  have ne : ¬ (AF_INET6 = AF_INET) := by decide
  refine ⟨by omega, ?_, ?_, ?_⟩
  · intro h4 h6 hr
    simp only [isV4, isV6, beq_eq_false_iff_ne, ne_eq] at h4 h6
    rw [serialize_of_room x b (by simp [wireLen, h4, h6]; exact hr)]
    simp [wireBytes, h4, h6, toByte]
  · intro h4 hr
    simp only [isV4, beq_iff_eq] at h4
    rw [serialize_of_room x b (by simp [wireLen, h4]; exact hr)]
    simp only [wireBytes, h4, if_true, bytesAt_four, e1, OFF_SIN_ADDR, e2]
    rfl
  · intro h6 hr
    simp only [isV6, beq_iff_eq] at h6
    rw [serialize_of_room x b (by simp [wireLen, h6, ne]; exact hr)]
    simp only [wireBytes, h6, ne, if_false, if_true, e1, e2, s6_addr]
    rfl

/-- Witness of C5: 1.2.3.4 port 80 appended to an empty buffer gives
0x04,1,2,3,4,0,80. -/
theorem serialize_exact_witness :
    exV4.serialize (⟨[]⟩ : Buffer 16) = (⟨[4, 1, 2, 3, 4, 0, 80]⟩, .ok ()) :=
  (serialize_exact exV4 (⟨[]⟩ : Buffer 16)).2.2.1 (by decide) (by decide)

/-- C6: decode follows the wire table. At offset `s`, the tag 0x00 leaves
the target the none endpoint (all zero); the tag 0x04 followed by its six
bytes leaves an IPv4 endpoint whose address bytes are the bytes at s+1..s+4
and whose `port()` is 256*b[s+5]+b[s+6]; the tag 0x06 followed by its
eighteen bytes leaves an IPv6 endpoint whose address bytes are the bytes at
s+1..s+16 and whose `port()` is 256*b[s+17]+b[s+18]. -/
theorem deserialize_wire_table {C : Nat} (t : InetAddress) (b : Buffer C) (s : Nat) :
    (b.data[s]? = some 0 → t.deserialize b s = (nil, .ok 1)) ∧
    (b.data[s]? = some 4 → s + 7 ≤ b.data.length →
      (t.deserialize b s).2 = .ok 7 ∧
      (t.deserialize b s).1.isV4 = true ∧
      (t.deserialize b s).1.rawIpData = some ((b.data.drop (s + 1)).take 4) ∧
      (t.deserialize b s).1.port
        = 256 * (b.data.getD (s + 5) 0).val + (b.data.getD (s + 6) 0).val) ∧
    (b.data[s]? = some 6 → s + 19 ≤ b.data.length →
      (t.deserialize b s).2 = .ok 19 ∧
      (t.deserialize b s).1.isV6 = true ∧
      (t.deserialize b s).1.rawIpData = some ((b.data.drop (s + 1)).take 16) ∧
      (t.deserialize b s).1.port
        = 256 * (b.data.getD (s + 17) 0).val + (b.data.getD (s + 18) 0).val) := by
  have ne : ¬ (AF_INET6 = AF_INET) := by decide
  refine ⟨?_, ?_, ?_⟩
  · intro h
    exact deserialize_tag0 t b s 0 h rfl
  · intro h hl
    rw [deserialize_tag4 t b s 4 h rfl hl]
    have hn : ((b.data.drop (s + 1)).take 4).length = 4 := by
      simp; omega
    have fam := decoded_family AF_INET OFF_SIN_ADDR
      (hton (256 * (b.data.getD (s + 5) 0).val + (b.data.getD (s + 6) 0).val))
      ((b.data.drop (s + 1)).take 4) (by decide) (by decide)
    refine ⟨rfl, ?_, ?_, ?_⟩
    · simp only [isV4, fam, beq_self_eq_true]
    · simp only [rawIpData, fam, if_true]
      rw [decoded_bytesAt _ _ _ 4 _ hn (by decide) (by decide)]
    · exact decoded_port _ _ _ _ _ (Or.inl rfl) (by decide)
  · intro h hl
    rw [deserialize_tag6 t b s 6 h rfl hl]
    have hn : ((b.data.drop (s + 1)).take 16).length = 16 := by
      simp; omega
    have fam := decoded_family AF_INET6 OFF_SIN6_ADDR
      (hton (256 * (b.data.getD (s + 17) 0).val + (b.data.getD (s + 18) 0).val))
      ((b.data.drop (s + 1)).take 16) (by decide) (by decide)
    refine ⟨rfl, ?_, ?_, ?_⟩
    · simp only [isV6, fam, beq_self_eq_true]
    · simp only [rawIpData, fam, ne, if_false, if_true]
      rw [decoded_bytesAt _ _ _ 16 _ hn (by decide) (by decide)]
    · exact decoded_port _ _ _ _ _ (Or.inr rfl) (by decide)

/-- Witness of C6: the record 0x04,1,2,3,4,0,80 at offset 2 decodes to an
IPv4 endpoint with address bytes 1,2,3,4 and port 80. -/
theorem deserialize_wire_table_witness :
    (exV6.deserialize (⟨[9, 9, 4, 1, 2, 3, 4, 0, 80]⟩ : Buffer 16) 2).1.rawIpData
      = some [1, 2, 3, 4] ∧
    (exV6.deserialize (⟨[9, 9, 4, 1, 2, 3, 4, 0, 80]⟩ : Buffer 16) 2).1.port = 80 :=
  have h := (deserialize_wire_table exV6 (⟨[9, 9, 4, 1, 2, 3, 4, 0, 80]⟩ : Buffer 16) 2).2.1
    rfl (by decide)
  ⟨h.2.2.1, h.2.2.2⟩

/-- C7: decode leaks no prior state. For every buffer and offset and any two
prior values of the target, the two runs of `deserialize` have the same
outcome: the same value returned or exception thrown, and the same storage,
byte for byte. After a successful decode every byte outside the family, the
port and the address bytes is zero: bytes 8 and up for IPv4, bytes 4 to 7
and 24 and up for IPv6, and all bytes for the none endpoint. -/
theorem deserialize_ignores_prior {C : Nat} (b : Buffer C) (s : Nat) (t1 t2 : InetAddress) :
    t1.deserialize b s = t2.deserialize b s ∧
    (∀ n, (t1.deserialize b s).2 = .ok n →
      ((t1.deserialize b s).1 = nil ∨
       ((t1.deserialize b s).1.ss_family = AF_INET ∧
          ∀ k, 8 ≤ k → (t1.deserialize b s).1.rd k = 0) ∨
       ((t1.deserialize b s).1.ss_family = AF_INET6 ∧
          ∀ k, (4 ≤ k ∧ k < 8) ∨ 24 ≤ k → (t1.deserialize b s).1.rd k = 0))) := by
  constructor
  · simp only [deserialize, memset_all]
  · intro n h
    obtain ⟨tag, ht, hc⟩ := deserialize_ok_cases t1 b s n h
    rcases hc with ⟨h0, _⟩ | ⟨h4, hl, _⟩ | ⟨h6, hl, _⟩
    · rw [deserialize_tag0 t1 b s tag ht h0]
      exact Or.inl rfl
    · rw [deserialize_tag4 t1 b s tag ht h4 hl]
      have hn : ((b.data.drop (s + 1)).take 4).length = 4 := by
        simp; omega
      refine Or.inr (Or.inl ⟨decoded_family _ _ _ _ (by decide) (by decide), ?_⟩)
      intro k hk
      exact decoded_zero _ OFF_SIN_ADDR _ 4 _ hn (by decide) k
        (Or.inr (by unfold OFF_SIN_ADDR; omega))
    · rw [deserialize_tag6 t1 b s tag ht h6 hl]
      have hn : ((b.data.drop (s + 1)).take 16).length = 16 := by
        simp; omega
      refine Or.inr (Or.inr ⟨decoded_family _ _ _ _ (by decide) (by decide), ?_⟩)
      intro k hk
      refine decoded_zero _ OFF_SIN6_ADDR _ 16 _ hn (by decide) k ?_
      unfold OFF_SIN6_ADDR
      omega

/-- Witness of C7: the same IPv4 record decoded into a target that held an
IPv6 endpoint and into a target that held the none endpoint. -/
theorem deserialize_ignores_prior_witness :
    exV6.deserialize (⟨[4, 1, 2, 3, 4, 0, 80]⟩ : Buffer 16) 0
      = nil.deserialize (⟨[4, 1, 2, 3, 4, 0, 80]⟩ : Buffer 16) 0 ∧
    ((exV6.deserialize (⟨[4, 1, 2, 3, 4, 0, 80]⟩ : Buffer 16) 0).1 = nil ∨
     ((exV6.deserialize (⟨[4, 1, 2, 3, 4, 0, 80]⟩ : Buffer 16) 0).1.ss_family = AF_INET ∧
        ∀ k, 8 ≤ k → (exV6.deserialize (⟨[4, 1, 2, 3, 4, 0, 80]⟩ : Buffer 16) 0).1.rd k = 0) ∨
     ((exV6.deserialize (⟨[4, 1, 2, 3, 4, 0, 80]⟩ : Buffer 16) 0).1.ss_family = AF_INET6 ∧
        ∀ k, (4 ≤ k ∧ k < 8) ∨ 24 ≤ k →
          (exV6.deserialize (⟨[4, 1, 2, 3, 4, 0, 80]⟩ : Buffer 16) 0).1.rd k = 0)) :=
  ⟨(deserialize_ignores_prior (⟨[4, 1, 2, 3, 4, 0, 80]⟩ : Buffer 16) 0 exV6 nil).1,
    (deserialize_ignores_prior (⟨[4, 1, 2, 3, 4, 0, 80]⟩ : Buffer 16) 0 exV6 nil).2 7 rfl⟩

/-- C12: `netmaskBits()` and `metric()` return what `port()` returns, on
every endpoint; a value p in 0..65535 stored with `setPort(p)` on an IPv4 or
IPv6 endpoint is read back as p by each of the three; on an endpoint that is
neither IPv4 nor IPv6 all three return 0. -/
theorem port_aliases (a : InetAddress) (p : Nat) :
    a.netmaskBits = a.port ∧ a.metric = a.port ∧
    (a.isV4 = true ∨ a.isV6 = true → p < 65536 →
      (a.setPort p).port = p ∧ (a.setPort p).netmaskBits = p ∧ (a.setPort p).metric = p) ∧
    (a.isV4 = false → a.isV6 = false →
      a.port = 0 ∧ a.netmaskBits = 0 ∧ a.metric = 0) := by
  refine ⟨rfl, rfl, ?_, ?_⟩
  · intro h hp
    simp only [isV4, isV6, beq_iff_eq] at h
    have e := setPort_port a p h
    rw [Nat.mod_eq_of_lt hp] at e
    exact ⟨e, e, e⟩
  · intro h4 h6
    simp only [isV4, isV6, beq_eq_false_iff_ne, ne_eq] at h4 h6
    have e : a.port = 0 := by simp [port, h4, h6]
    exact ⟨e, e, e⟩

/-- Witness of C12: the prefix length 24 stored with `setPort` on 1.2.3.4 is
read back by `port()`, `netmaskBits()` and `metric()`. -/
theorem port_aliases_witness :
    (exV4.setPort 24).port = 24 ∧ (exV4.setPort 24).netmaskBits = 24 ∧
    (exV4.setPort 24).metric = 24 :=
  (port_aliases exV4 24).2.2.1 (Or.inl (by decide)) (by decide)

/-- C17: on an IPv4 or IPv6 endpoint, after `setPort(p)` the accessor
`port()` returns p mod 65536, hence p itself when p is at most 65535; the
family, the address bytes and every storage byte outside the two bytes of
the port field are unchanged. -/
theorem setPort_port_frame (a : InetAddress) (p : Nat)
    (h : a.isV4 = true ∨ a.isV6 = true) :
    (a.setPort p).port = p % 65536 ∧
    (p < 65536 → (a.setPort p).port = p) ∧
    (a.setPort p).ss_family = a.ss_family ∧
    (a.setPort p).rawIpData = a.rawIpData ∧
    (∀ i : Fin 128, i.val ≠ OFF_PORT → i.val ≠ OFF_PORT + 1 →
      (a.setPort p).mem i = a.mem i) := by
  simp only [isV4, isV6, beq_iff_eq] at h
  refine ⟨setPort_port a p h, ?_, setPort_family a p, setPort_rawIpData a p, ?_⟩
  · intro hp
    rw [setPort_port a p h, Nat.mod_eq_of_lt hp]
  · intro i h2 h3
    have e := setPort_rd a p i.val h i.isLt
    unfold OFF_PORT at h2 h3
    rw [if_neg h2, if_neg h3, rd_val, rd_val] at e
    exact e

/-- Witness of C17: `setPort(70000)` on 1.2.3.4 port 80 leaves port 4464,
which is 70000 mod 65536, and the address 1.2.3.4. -/
theorem setPort_port_frame_witness :
    (exV4.setPort 70000).port = 4464 ∧
    (exV4.setPort 70000).rawIpData = some [1, 2, 3, 4] :=
  have h := setPort_port_frame exV4 70000 (Or.inl (by decide))
  ⟨h.1, h.2.2.2.1⟩

/-- C16: a failed decode is not atomic. Whenever `deserialize` throws
`std::invalid_argument`, the target is the all-zero none endpoint, with
`operator bool` false and `port()` 0, whatever it held before the call. -/
theorem deserialize_invalid_tag_resets {C : Nat} (t : InetAddress) (b : Buffer C) (s : Nat)
    (h : (t.deserialize b s).2 = .error .invalidArgument) :
    (t.deserialize b s).1 = nil ∧
    (∀ i, (t.deserialize b s).1.mem i = 0) ∧
    (t.deserialize b s).1.toBool = false ∧
    (t.deserialize b s).1.port = 0 := by
  rw [deserialize_invalid_state t b s h]
  exact ⟨rfl, fun _ => rfl, rfl, rfl⟩

/-- Witness of C16: decoding the tag 0x05 into a target that held 1.2.3.4
port 80 leaves the none endpoint, not the prior value. -/
theorem deserialize_invalid_tag_resets_witness :
    (exV4.deserialize (⟨[5, 1, 2, 3, 4, 0, 80]⟩ : Buffer 16) 0).1 = nil ∧
    (exV4.deserialize (⟨[5, 1, 2, 3, 4, 0, 80]⟩ : Buffer 16) 0).1 ≠ exV4 ∧
    exV4.toBool = true ∧ exV4.port = 80 :=
  have h := deserialize_invalid_tag_resets exV4 (⟨[5, 1, 2, 3, 4, 0, 80]⟩ : Buffer 16) 0 rfl
  ⟨h.1, by rw [h.1]; decide, by decide, by decide⟩

/-- C14: cursor synchronisation. For every endpoint `x`, of any family
value, and every buffer `pre`: if `serialize` appended the record of `x` to
`pre`, giving `b1`, then `deserialize` at offset `pre.length` of `b1`
succeeds and returns exactly the number of bytes appended, which is 7 for
IPv4, 19 for IPv6 and 1 for any other family, whatever the offset. -/
theorem serialize_deserialize_cursor {C : Nat} (x t : InetAddress) (pre b1 : Buffer C)
    (hs : x.serialize pre = (b1, .ok ())) :
    (t.deserialize b1 pre.data.length).2 = .ok (b1.data.length - pre.data.length) ∧
    b1.data.take pre.data.length = pre.data ∧
    b1.data.length - pre.data.length
      = (if x.isV4 = true then 7 else if x.isV6 = true then 19 else 1) := by
  have room := serialize_ok_room x pre b1 hs
  rw [serialize_of_room x pre room] at hs
  have hb : b1 = ⟨pre.data ++ x.wireBytes⟩ := (congrArg Prod.fst hs).symm
  subst hb
  have hl : (pre.data ++ x.wireBytes).length - pre.data.length = x.wireLen := by
    rw [List.length_append, wireBytes_length]
    omega
  simp only [hl]
  refine ⟨deserialize_wire x t pre, by simp, ?_⟩
  simp [wireLen, isV4, isV6]

/-- Witness of C14: an endpoint of family 1 appended after three bytes is
decoded at offset 3 with count 1. -/
theorem serialize_deserialize_cursor_witness :
    (exV6.deserialize (⟨[9, 9, 9, 0]⟩ : Buffer 8) 3).2 = .ok (4 - 3) :=
  (serialize_deserialize_cursor exOtherFamily exV6 (⟨[9, 9, 9]⟩ : Buffer 8) ⟨[9, 9, 9, 0]⟩
    rfl).1

/-- C11 as stated fails: assignment from a `sockaddr_storage`, a
`sockaddr_in` or a `sockaddr_in6` whose family is 0 and whose port bytes are
0, 80 gives an endpoint of family none with non-zero storage, although the
target was the default-constructed endpoint, which satisfies the invariant. -/
theorem noneIsZero_counterexample :
    nil.NoneIsZero ∧
    (nil.assign_sockaddr_storage exStorageNoFamily).ss_family = 0 ∧
    ¬ (nil.assign_sockaddr_storage exStorageNoFamily).NoneIsZero ∧
    ¬ (nil.assign_sockaddr_in exSockaddrInNoFamily).NoneIsZero ∧
    ¬ (nil.assign_sockaddr_in6 exSockaddrIn6NoFamily).NoneIsZero := by
  have hr := rd_assign_sockaddr_storage nil exStorageNoFamily
  have fam : (nil.assign_sockaddr_storage exStorageNoFamily).ss_family = 0 := by
    unfold ss_family load16
    rw [hr, hr]
    decide
  refine ⟨fun _ => rfl, fam, ?_, ?_, ?_⟩
  · intro h
    have e := congrArg (fun a : InetAddress => a.rd 3) (h fam)
    simp only [hr] at e
    revert e
    decide
  · intro h
    have e := congrArg (fun a : InetAddress => a.rd 3) (h (by decide))
    revert e
    decide
  · intro h
    have e := congrArg (fun a : InetAddress => a.rd 3) (h (by decide))
    revert e
    decide

/-- C11, amended: the invariant "family none implies all storage zero" holds
for the default-constructed endpoint, after `zero`, after assignment from a
generic `sockaddr` and after `deserialize` (returning or throwing), and
`setPort` preserves it; assignment from a `sockaddr_in`, a `sockaddr_in6` or
a `sockaddr_storage` copies the source as it is, so the result satisfies the
invariant exactly when the source has a non-zero family or is all zero. -/
theorem noneIsZero_invariant :
    nil.NoneIsZero ∧
    (∀ self : InetAddress, self.zero.NoneIsZero) ∧
    (∀ (self : InetAddress) (sa : Sockaddr), (self.assign_sockaddr sa).NoneIsZero) ∧
    (∀ (C : Nat) (self : InetAddress) (b : Buffer C) (s : Nat),
      (self.deserialize b s).1.NoneIsZero) ∧
    (∀ (self : InetAddress) (p : Nat), self.NoneIsZero → (self.setPort p).NoneIsZero) ∧
    (∀ (self : InetAddress) (sa : SockaddrIn),
      (self.assign_sockaddr_in sa).NoneIsZero ↔ (sa.sin_family = 0 → ∀ i, sa.mem i = 0)) ∧
    (∀ (self : InetAddress) (sa : SockaddrIn6),
      (self.assign_sockaddr_in6 sa).NoneIsZero ↔ (sa.sin6_family = 0 → ∀ i, sa.mem i = 0)) ∧
    (∀ (self : InetAddress) (ss : SockaddrStorage),
      (self.assign_sockaddr_storage ss).NoneIsZero ↔
        (ss.ss_family = 0 → ∀ i, ss.mem i = 0)) := by
  refine ⟨fun _ => rfl, ?_, noneIsZero_assign_sockaddr, ?_, noneIsZero_setPort, ?_, ?_, ?_⟩
  · intro self _
    exact memset_all self
  · intro C self b s
    exact noneIsZero_deserialize self b s
  · intro self sa
    exact noneIsZero_of_copy _ sa.mem (by decide) (rd_copy_fn self sa.mem (by decide))
  · intro self sa
    exact noneIsZero_of_copy _ sa.mem (by decide) (rd_copy_fn self sa.mem (by decide))
  · intro self ss
    exact noneIsZero_of_copy _ ss.mem (by decide) (rd_assign_sockaddr_storage self ss)

/-- Witness of C11, amended: `setPort` on the default-constructed endpoint,
and assignment from a `sockaddr_in` of family `AF_INET`. -/
theorem noneIsZero_invariant_witness :
    (nil.setPort 80).NoneIsZero ∧ (exV6.assign_sockaddr_in exSockaddrIn).NoneIsZero :=
  ⟨noneIsZero_invariant.2.2.2.2.1 nil 80 (by decide),
    (noneIsZero_invariant.2.2.2.2.2.1 exV6 exSockaddrIn).2 (fun h => absurd h (by decide))⟩

/-- C18: assignment from a generic `sockaddr` normalises by family. When the
family is neither `AF_INET` nor `AF_INET6` the result is the all-zero none
endpoint, `operator bool` false, whatever the target held. When the family
is `AF_INET` the result is an IPv4 endpoint with the address bytes and the
port of the source, its first 16 bytes those of the source and every byte
from offset 16 on zero. -/
theorem assign_sockaddr_normalises (self : InetAddress) (sa : Sockaddr) :
    (sa.sa_family ≠ AF_INET → sa.sa_family ≠ AF_INET6 →
      self.assign_sockaddr sa = nil ∧ (self.assign_sockaddr sa).toBool = false) ∧
    (sa.sa_family = AF_INET →
      (self.assign_sockaddr sa).isV4 = true ∧
      (self.assign_sockaddr sa).rawIpData = some [sa.mem 4, sa.mem 5, sa.mem 6, sa.mem 7] ∧
      (self.assign_sockaddr sa).port = 256 * (sa.mem 2).val + (sa.mem 3).val ∧
      (∀ k, k < SIZEOF_SOCKADDR_IN → (self.assign_sockaddr sa).rd k = sa.mem k) ∧
      (∀ k, SIZEOF_SOCKADDR_IN ≤ k → (self.assign_sockaddr sa).rd k = 0)) := by
  constructor
  · intro h4 h6
    rw [assign_sockaddr_other self sa h4 h6]
    exact ⟨rfl, rfl⟩
  · intro h4
    have fam : (self.assign_sockaddr sa).ss_family = AF_INET := by
      rw [family_assign_sockaddr self sa (Or.inl h4), h4]
    have hr := rd_assign_sockaddr_v4 self sa h4
    refine ⟨?_, ?_, ?_, ?_, ?_⟩
    · simp only [isV4, fam, beq_self_eq_true]
    · simp only [rawIpData, fam, if_true, bytesAt_four, OFF_SIN_ADDR, hr]
      rfl
    · rw [port_bytes _ (Or.inl fam), hr, hr]
      rfl
    · intro k hk
      unfold SIZEOF_SOCKADDR_IN at hk
      rw [hr, if_pos hk]
    · intro k hk
      unfold SIZEOF_SOCKADDR_IN at hk
      rw [hr, if_neg (by omega)]

/-- Witness of C18: a `sockaddr` of family 1 assigned to a target that held
an IPv6 endpoint gives the none endpoint; a `sockaddr` of family `AF_INET`
gives 1.2.3.4 port 80. -/
theorem assign_sockaddr_normalises_witness :
    exV6.assign_sockaddr exSockaddrOther = nil ∧
    (exV6.assign_sockaddr exSockaddr).rawIpData
      = some [exSockaddr.mem 4, exSockaddr.mem 5, exSockaddr.mem 6, exSockaddr.mem 7] ∧
    (exV6.assign_sockaddr exSockaddr).port = 80 :=
  ⟨((assign_sockaddr_normalises exV6 exSockaddrOther).1 (by decide) (by decide)).1,
    ((assign_sockaddr_normalises exV6 exSockaddr).2 (by decide)).2.1,
    ((assign_sockaddr_normalises exV6 exSockaddr).2 (by decide)).2.2.1⟩

/-- C15 as stated fails in its last clause: the byte string 0x00 is
decodable, and it is the encoding of the none endpoint and also of an
endpoint of family 1, which is a different endpoint. -/
theorem wire_encoding_counterexample :
    nil.deserialize (⟨[0]⟩ : Buffer 4) 0 = (nil, .ok 1) ∧
    nil.serialize (⟨[]⟩ : Buffer 4) = (⟨[0]⟩, .ok ()) ∧
    exOtherFamily.serialize (⟨[]⟩ : Buffer 4) = (⟨[0]⟩, .ok ()) ∧
    exOtherFamily ≠ nil :=
  ⟨deserialize_tag0 nil (⟨[0]⟩ : Buffer 4) 0 0 rfl rfl, rfl, rfl, by decide⟩

/-- C15, amended: the wire encoding is canonical. Whenever `deserialize`
succeeds at offset `s` returning `n`, serializing the decoded endpoint into
an empty buffer of capacity at least `n` yields exactly the `n` bytes
b[s..s+n); and the decoded endpoint is the only endpoint with zero storage
outside family, address bytes and port (the none endpoint being all zero)
whose encoding is that byte string. -/
theorem deserialize_serialize_canonical {C D : Nat} (t : InetAddress) (b : Buffer C)
    (s n : Nat) (h : (t.deserialize b s).2 = .ok n) (hD : n ≤ D) :
    (t.deserialize b s).1.serialize (⟨[]⟩ : Buffer D)
      = (⟨(b.data.drop s).take n⟩, .ok ()) ∧
    ((b.data.drop s).take n).length = n ∧
    (∀ y : InetAddress, (y = nil ∨ y.Canonical) →
      y.serialize (⟨[]⟩ : Buffer D) = (⟨(b.data.drop s).take n⟩, .ok ()) →
      y = (t.deserialize b s).1) := by
  obtain ⟨hc, hw, hlen⟩ := decode_reencode t b s n h
  have hser : (t.deserialize b s).1.serialize (⟨[]⟩ : Buffer D)
      = (⟨(b.data.drop s).take n⟩, .ok ()) := by
    rw [serialize_of_room _ ⟨[]⟩ (by rw [hlen]; simpa using hD), hw]
    simp
  refine ⟨hser, ?_, ?_⟩
  · rw [← hw, wireBytes_length, hlen]
  · intro y hy hys
    have e1 := serialize_empty_wireBytes y _ hys
    have e2 := roundtrip_any (C := D) y t hy
    have e3 := roundtrip_any (C := D) (t.deserialize b s).1 t hc
    rw [e1] at e2
    rw [hw] at e3
    rw [← e2, e3]

/-- Witness of C15, amended: the IPv4 record at offset 2 of a buffer is
reproduced by encoding the decoded endpoint. -/
theorem deserialize_serialize_canonical_witness :
    (nil.deserialize (⟨[9, 9, 4, 1, 2, 3, 4, 0, 80, 9]⟩ : Buffer 16) 2).1.serialize
      (⟨[]⟩ : Buffer 8) = (⟨[4, 1, 2, 3, 4, 0, 80]⟩, .ok ()) :=
  (deserialize_serialize_canonical nil (⟨[9, 9, 4, 1, 2, 3, 4, 0, 80, 9]⟩ : Buffer 16) 2 7
    rfl (by decide)).1

/-- C13: `makeIpv6rfc4193(nwid, member)` returns, for every network ID and
member ID, an IPv6 endpoint with prefix length (port) 88 whose 16 address
bytes are: byte 0 = 0xfd; bytes 1 to 5 = the high 40 bits of the 64-bit
network ID; bytes 6 and 7 = its low 16 bits; bytes 8 and 9 = 0x99, 0x93;
bytes 10 to 14 = the low 40 bits of the member ID, whose higher bits are
ignored; byte 15 = 0x00. -/
theorem makeIpv6rfc4193_layout (nwid member : Nat) :
    (makeIpv6rfc4193 nwid member).isV6 = true ∧
    (makeIpv6rfc4193 nwid member).port = 88 ∧
    (makeIpv6rfc4193 nwid member).rawIpData
      = some [0xfd,
          toByte (nwid / 2 ^ 56), toByte (nwid / 2 ^ 48), toByte (nwid / 2 ^ 40),
          toByte (nwid / 2 ^ 32), toByte (nwid / 2 ^ 24),
          toByte (nwid / 2 ^ 8), toByte nwid,
          0x99, 0x93,
          toByte (member / 2 ^ 32), toByte (member / 2 ^ 24), toByte (member / 2 ^ 16),
          toByte (member / 2 ^ 8), toByte member,
          0x00] ∧
    (makeIpv6rfc4193 nwid member).s6_addr.length = 16 ∧
    (makeIpv6rfc4193 nwid member).s6_addr.getD 0 0 = 0xfd ∧
    beValue (((makeIpv6rfc4193 nwid member).s6_addr.drop 1).take 5)
      = nwid % 2 ^ 64 / 2 ^ 24 ∧
    beValue (((makeIpv6rfc4193 nwid member).s6_addr.drop 6).take 2) = nwid % 2 ^ 16 ∧
    ((makeIpv6rfc4193 nwid member).s6_addr.drop 8).take 2 = [0x99, 0x93] ∧
    beValue (((makeIpv6rfc4193 nwid member).s6_addr.drop 10).take 5) = member % 2 ^ 40 ∧
    (makeIpv6rfc4193 nwid member).s6_addr.getD 15 0 = 0x00 ∧
    makeIpv6rfc4193 nwid member = makeIpv6rfc4193 nwid (member % 2 ^ 40) := by
  have ne : ¬ (AF_INET6 = AF_INET) := by decide
  have fam : (makeIpv6rfc4193 nwid member).ss_family = AF_INET6 :=
    decoded_family AF_INET6 OFF_SIN6_ADDR (hton 88) _ (by decide) (by decide)
  have addr : (makeIpv6rfc4193 nwid member).s6_addr
      = [toByte 0xfd,
          toByte (nwid / 2 ^ 56), toByte (nwid / 2 ^ 48), toByte (nwid / 2 ^ 40),
          toByte (nwid / 2 ^ 32), toByte (nwid / 2 ^ 24),
          toByte (nwid / 2 ^ 8), toByte nwid,
          toByte 0x99, toByte 0x93,
          toByte (member / 2 ^ 32), toByte (member / 2 ^ 24), toByte (member / 2 ^ 16),
          toByte (member / 2 ^ 8), toByte member,
          toByte 0x00] :=
    decoded_bytesAt AF_INET6 OFF_SIN6_ADDR (hton 88) 16 _ rfl (by decide) (by decide)
  refine ⟨?_, ?_, ?_, ?_, ?_, ?_, ?_, ?_, ?_, ?_, ?_⟩
  · simp only [isV6, fam, beq_self_eq_true]
  · exact decoded_port AF_INET6 OFF_SIN6_ADDR _ 0 88 (Or.inr rfl) (by decide)
  · simp only [rawIpData, fam, ne, if_false, if_true]
    exact congrArg some addr
  · rw [addr]
    rfl
  · rw [addr]
    rfl
  · rw [addr]
    exact beValue_high40 nwid
  · rw [addr]
    exact beValue_two nwid
  · rw [addr]
    rfl
  · rw [addr]
    exact beValue_five member
  · rw [addr]
    rfl
  · have e : ∀ k, k ≤ 32 → toByte (member % 2 ^ 40 / 2 ^ k) = toByte (member / 2 ^ k) := by
      intro k hk
      apply Fin.ext
      simp only [toByte]
      have h1 : (2 : Nat) ^ 40 = 2 ^ k * 2 ^ (40 - k) := by
        rw [← Nat.pow_add]
        congr 1
        omega
      rw [h1, Nat.mod_mul_right_div_self]
      have h2 : (2 : Nat) ^ (40 - k) = 256 * 2 ^ (40 - k - 8) := by
        rw [show (256 : Nat) = 2 ^ 8 from rfl, ← Nat.pow_add]
        congr 1
        omega
      rw [h2, Nat.mod_mul_right_mod]
    unfold makeIpv6rfc4193
    have e0 := e 0 (by decide)
    simp only [Nat.pow_zero, Nat.div_one] at e0
    rw [e 32 (by decide), e 24 (by decide), e 16 (by decide), e 8 (by decide), e0]

/-- Witness of C13: the network ID 0x8056c9e21c000001 and the member 1 give
the address bytes fd 80 56 c9 e2 1c 00 01 99 93 00 00 00 00 01 00 and the
prefix length 88. -/
theorem makeIpv6rfc4193_layout_witness :
    (makeIpv6rfc4193 0x8056c9e21c000001 1).port = 88 ∧
    (makeIpv6rfc4193 0x8056c9e21c000001 1).rawIpData
      = some [0xfd, 0x80, 0x56, 0xc9, 0xe2, 0x1c, 0x00, 0x01,
          0x99, 0x93, 0x00, 0x00, 0x00, 0x00, 0x01, 0x00] :=
  ⟨(makeIpv6rfc4193_layout 0x8056c9e21c000001 1).2.1,
    (makeIpv6rfc4193_layout 0x8056c9e21c000001 1).2.2.1⟩

end ZeroTier
